import Mathlib

/-!
# kutil: the kflap monitor and the kctx context renaming

A shallow embedding of `internal/kflap/monitor.go` and `internal/kflap/tui.go`
(namespace `Kflap`) and of `internal/kctx/tr.go` (namespace `Kctx`).

* Go strings are Lean strings; the only characters the embedded code inspects
  are ASCII (`/`, `+`, `-`, the digits).
* `int64` values are integers; the one arithmetic operation of the embedded
  code, `changes++`, wraps around modulo `2^64` (`wrapInt64`).
* The table `map[string]*ResourceInfo` is an association list read with
  `Table.get` and written with `Table.set`.
* The cluster is an explicit environment (`Cluster`): the discovery catalogue,
  the outcome of the namespace enumeration and the outcome of every list call.
-/

namespace Kflap

/-! ## Data model (`monitor.go`, `kflap.go`) -/

/-- ResourceInfo holds information about a Kubernetes resource
(`monitor.go`, lines 17-23; the Go field `Type` is spelled `Typ`). -/
structure ResourceInfo where
  Name : String
  Typ : String
  Namespace : String
  ResourceVersion : Int
  Changes : Int
deriving DecidableEq, Repr

/-- Config holds the configuration for the kflap monitor (`kflap.go`, lines 8-13). -/
structure Config where
  Resources : List String
  Namespaces : List String
  Interval : Int
  Limit : Int
deriving DecidableEq, Repr

/-- The table `map[string]*ResourceInfo` of the monitor, keyed by
`namespace/type/name`. -/
abbrev Table := List (String × ResourceInfo)

/-- Map read `m.resources[key]` (the comma-ok form). -/
def Table.get (t : Table) (key : String) : Option ResourceInfo :=
  match t with
  | [] => none
  | (k, r) :: rest => if k = key then some r else Table.get rest key

/-- Map write `m.resources[key] = r`: the binding of `key` is replaced, every
other binding is kept. -/
def Table.set (t : Table) (key : String) (r : ResourceInfo) : Table :=
  (key, r) :: t.filter (fun kv => !decide (kv.1 = key))

/-- Monitor state: the configuration and the table (`monitor.go`, lines 26-32;
the clients are the `Cluster` environment, the mutex has no sequential content). -/
structure Monitor where
  config : Config
  resources : Table

/-! ## Machine integers and `strconv.ParseInt` -/

/-- Largest `int64`. -/
def maxInt64 : Int := 9223372036854775807

/-- Smallest `int64`. -/
def minInt64 : Int := -9223372036854775808

/-- Two's-complement wrap-around of an integer into the `int64` range. -/
def wrapInt64 (x : Int) : Int :=
  (x + 9223372036854775808) % 18446744073709551616 - 9223372036854775808

/-- Digit loop of `strconv.ParseUint(s, 10, 64)`: every byte must be a decimal
digit, and the accumulated value must stay within `uint64`; `none` is any
error (syntax or range). -/
def parseUintLoop : List Char → Nat → Option Nat
  | [], n => some n
  | c :: cs, n =>
    if '0' ≤ c ∧ c ≤ '9' then
      if n ≥ 1844674407370955162 then none
      else if n * 10 + (c.toNat - '0'.toNat) > 18446744073709551615 then none
      else parseUintLoop cs (n * 10 + (c.toNat - '0'.toNat))
    else none

/-- Library function `strconv.ParseUint(s, 10, 64)`; `none` is any error. -/
def parseUint64 (s : List Char) : Option Nat :=
  match s with
  | [] => none
  | _ => parseUintLoop s 0

/-- Library function `strconv.ParseInt(s, 10, 64)`: an optional sign followed
by at least one decimal digit, the value within `[-2^63, 2^63 - 1]`; `none` is
any error. -/
def parseInt64 (s : String) : Option Int :=
  match s.data with
  | [] => none
  | c :: cs =>
    let neg := decide (c = '-')
    let rest := if c = '+' ∨ c = '-' then cs else c :: cs
    match parseUint64 rest with
    | none => none
    | some un =>
      if !neg && decide (un ≥ 9223372036854775808) then none
      else if neg && decide (un > 9223372036854775808) then none
      else some (if neg then -(un : Int) else (un : Int))

/-! ## The version-diff monitor (`monitor.go`, lines 145-174) -/

/-- The key `fmt.Sprintf("%s/%s/%s", namespace, resourceType, name)`. -/
def resourceKey (nspace resourceType name : String) : String :=
  nspace ++ "/" ++ resourceType ++ "/" ++ name

/-- Monitor.updateResourceInfo (`monitor.go`, lines 145-174). -/
def updateResourceInfo (resources : Table)
    (name resourceType nspace versionStr : String) : Table :=
  let key := resourceKey nspace resourceType name
  match parseInt64 versionStr with
  | none => resources
  | some version =>
    match resources.get key with
    | some existing =>
      let changes :=
        if version ≠ existing.ResourceVersion then wrapInt64 (existing.Changes + 1)
        else existing.Changes
      resources.set key
        { Name := name, Typ := resourceType, Namespace := nspace,
          ResourceVersion := version, Changes := changes }
    | none =>
      resources.set key
        { Name := name, Typ := resourceType, Namespace := nspace,
          ResourceVersion := version, Changes := 0 }

/-- Successive observations of one identity, one token per poll. -/
def observeAll (resources : Table) (name resourceType nspace : String)
    (tokens : List String) : Table :=
  tokens.foldl (fun t tok => updateResourceInfo t name resourceType nspace tok) resources

/-- Number of adjacent positions of a token sequence whose numeric versions differ. -/
def transitions : List String → Nat
  | a :: b :: rest =>
    (if parseInt64 a ≠ parseInt64 b then 1 else 0) + transitions (b :: rest)
  | _ => 0

/-! ## Resource discovery (`monitor.go`, lines 190-283) -/

/-- One entry of the discovery catalogue (`metav1.APIResource`: the fields the
code reads). -/
structure APIResource where
  Name : String
  Kind : String
  Namespaced : Bool
  Verbs : List String
deriving DecidableEq, Repr

/-- One group/version of the discovery catalogue (`metav1.APIResourceList`). -/
structure APIResourceList where
  GroupVersion : String
  APIResources : List APIResource
deriving DecidableEq, Repr

/-- Descriptor of a resource type to poll (`monitor.go`, lines 190-196). -/
structure apiResourceInfo where
  Group : String
  Version : String
  Name : String
  Kind : String
  Namespaced : Bool
deriving DecidableEq, Repr

/-- Helper `hasVerb` (`monitor.go`, lines 267-274). -/
def hasVerb (verbs : List String) (verb : String) : Bool :=
  verbs.any (fun v => decide (v = verb))

/-- Helper `contains` (`monitor.go`, lines 276-283): the loop runs `i` over
`0 .. len(s)-len(substr)` and compares `s[i:i+len(substr)]` with `substr`. -/
def contains (s substr : String) : Bool :=
  (List.range (((s.length : Int) - (substr.length : Int) + 1).toNat)).any
    (fun i => decide ((s.data.drop i).take substr.length = substr.data))

/-- Library function `schema.ParseGroupVersion`: the empty string and `"/"`
give the empty group/version, a string without `/` is a version of the core
group, a string with one `/` splits there, anything else is an error (`none`).
The result is the pair (group, version). -/
def ParseGroupVersion (gv : String) : Option (String × String) :=
  if gv.length = 0 ∨ gv = "/" then some ("", "")
  else
    match gv.data.count '/' with
    | 0 => some ("", gv)
    | 1 => some (String.mk (gv.data.takeWhile (fun c => decide (c ≠ '/'))),
                 String.mk ((gv.data.dropWhile (fun c => decide (c ≠ '/'))).drop 1))
    | _ => none

/-- The table `deprecatedResources` (`monitor.go`, lines 218-220): per
group/version string, the resource names to skip. -/
def deprecatedResources (groupVersion : String) : Option (String → Bool) :=
  if groupVersion = "v1" then
    some (fun name => decide (name = "endpoints" ∨ name = "componentstatuses"))
  else none

/-- The set `resourceFilter` built from the configuration (`monitor.go`,
lines 209-214): the keys of the map. -/
def resourceFilter (config : Config) : List String :=
  config.Resources.dedup

/-- Body of the inner loop of `discoverResources` (`monitor.go`, lines 228-261):
the four skip tests in source order, then the append. -/
def discoverStep (filter : List String) (groupVersion : String) (gv : String × String)
    (result : List apiResourceInfo) (apiResource : APIResource) : List apiResourceInfo :=
  if decide (apiResource.Name.length > 0) &&
      (decide (apiResource.Name.data.getLast? = some '/') || contains apiResource.Name "/") then
    result
  else if (match deprecatedResources groupVersion with
      | some deprecated => deprecated apiResource.Name
      | none => false) then
    result
  else if !hasVerb apiResource.Verbs "list" then
    result
  else if decide (filter.length > 0) &&
      (!decide (apiResource.Name ∈ filter) && !decide (apiResource.Kind ∈ filter)) then
    result
  else
    result ++ [{ Group := gv.1, Version := gv.2, Name := apiResource.Name,
                 Kind := apiResource.Kind, Namespaced := apiResource.Namespaced }]

/-- Monitor.discoverResources (`monitor.go`, lines 198-265) on the catalogue the
discovery client returned (whatever its error, which the code ignores). The
second component is the returned error, always nil. -/
def discoverResources (config : Config) (apiResourceLists : List APIResourceList) :
    List apiResourceInfo × Option String :=
  let filter := resourceFilter config
  let result := apiResourceLists.foldl
    (fun result apiResourceList =>
      match ParseGroupVersion apiResourceList.GroupVersion with
      | none => result
      | some gv =>
        apiResourceList.APIResources.foldl
          (discoverStep filter apiResourceList.GroupVersion gv) result)
    []
  (result, none)

/-- The descriptor the loop body appends for a catalogue entry
(`monitor.go`, lines 254-260). -/
def descriptorOf (gv : String × String) (apiResource : APIResource) : apiResourceInfo :=
  { Group := gv.1, Version := gv.2, Name := apiResource.Name,
    Kind := apiResource.Kind, Namespaced := apiResource.Namespaced }

/-- None of the four skip tests of the loop body fires (`monitor.go`,
lines 229-252). -/
def discoverKeeps (filter : List String) (groupVersion : String)
    (apiResource : APIResource) : Bool :=
  !(decide (apiResource.Name.length > 0) &&
      (decide (apiResource.Name.data.getLast? = some '/') || contains apiResource.Name "/")) &&
  !(match deprecatedResources groupVersion with
      | some deprecated => deprecated apiResource.Name
      | none => false) &&
  hasVerb apiResource.Verbs "list" &&
  !(decide (filter.length > 0) &&
      (!decide (apiResource.Name ∈ filter) && !decide (apiResource.Kind ∈ filter)))

/-! ## Polling (`monitor.go`, lines 66-143) -/

/-- One listed object: what `GetName` and `GetResourceVersion` return. -/
structure Item where
  Name : String
  ResourceVersion : String
deriving DecidableEq, Repr

/-- The type `schema.GroupVersionResource`. -/
structure GroupVersionResource where
  Group : String
  Version : String
  Resource : String
deriving DecidableEq, Repr

/-- The cluster as seen by one poll: the discovery catalogue, the outcome of
the namespace enumeration, and the outcome of each list call. A list call is
identified by the number of list calls the poll issued before it, the resource
and the namespace (`none` for a cluster-wide list), so that repeated calls may
answer differently. -/
structure Cluster where
  catalogue : List APIResourceList
  namespaces : Except String (List String)
  list : Nat → GroupVersionResource → Option String → Except String (List Item)

/-- Monitor.pollNamespacedResource (`monitor.go`, lines 119-130); `n` is the
number of list calls issued so far. -/
def pollNamespacedResource (c : Cluster) (n : Nat) (resources : Table)
    (gvr : GroupVersionResource) (nspace kind : String) : Table × Option String :=
  match c.list n gvr (some nspace) with
  | .error err => (resources, some err)
  | .ok items =>
    (items.foldl
      (fun t item => updateResourceInfo t item.Name kind nspace item.ResourceVersion)
      resources, none)

/-- Monitor.pollClusterResource (`monitor.go`, lines 132-143). -/
def pollClusterResource (c : Cluster) (n : Nat) (resources : Table)
    (gvr : GroupVersionResource) (kind : String) : Table × Option String :=
  match c.list n gvr none with
  | .error err => (resources, some err)
  | .ok items =>
    (items.foldl
      (fun t item => updateResourceInfo t item.Name kind "" item.ResourceVersion)
      resources, none)

/-- Body of the loop over resource types in `Poll` (`monitor.go`, lines 93-114)
on the pair (table, number of list calls issued); an error of a list call is
dropped and the loop continues. -/
def pollResource (c : Cluster) (namespaces : List String) (st : Table × Nat)
    (apiResource : apiResourceInfo) : Table × Nat :=
  let gvr : GroupVersionResource :=
    { Group := apiResource.Group, Version := apiResource.Version,
      Resource := apiResource.Name }
  if apiResource.Namespaced then
    namespaces.foldl
      (fun st ns => ((pollNamespacedResource c st.2 st.1 gvr ns apiResource.Kind).1, st.2 + 1))
      st
  else
    ((pollClusterResource c st.2 st.1 gvr apiResource.Kind).1, st.2 + 1)

/-- The loop of `Poll` over the discovered resource types (`monitor.go`,
lines 92-116). -/
def pollResources (c : Cluster) (apiResources : List apiResourceInfo)
    (namespaces : List String) (resources : Table) : Table :=
  (apiResources.foldl (pollResource c namespaces) (resources, 0)).1

/-- Monitor.Poll (`monitor.go`, lines 67-117): the monitor after the call and
the returned error. -/
def Poll (c : Cluster) (m : Monitor) : Monitor × Option String :=
  match discoverResources m.config c.catalogue with
  | (_, some err) => (m, some ("error discovering resources: " ++ err))
  | (apiResources, none) =>
    if m.config.Namespaces.length = 0 then
      match c.namespaces with
      | .error err => (m, some ("error listing namespaces: " ++ err))
      | .ok nsList =>
        ({ m with resources :=
            pollResources c apiResources (m.config.Namespaces ++ nsList) m.resources }, none)
    else
      ({ m with resources :=
          pollResources c apiResources m.config.Namespaces m.resources }, none)

/-- One call of `updateResourceInfo` issued by a poll. -/
structure Observation where
  name : String
  resourceType : String
  nspace : String
  versionStr : String
deriving DecidableEq, Repr

/-- The table key an observation is recorded under. -/
def Observation.key (o : Observation) : String :=
  resourceKey o.nspace o.resourceType o.name

/-- Replays one observation on the table. -/
def Observation.apply (t : Table) (o : Observation) : Table :=
  updateResourceInfo t o.name o.resourceType o.nspace o.versionStr

/-- The observations a single list call contributes: none when it fails, one
per returned item otherwise. -/
def listObservations (c : Cluster) (n : Nat) (gvr : GroupVersionResource)
    (ns : Option String) (kind : String) : List Observation :=
  match c.list n gvr ns with
  | .error _ => []
  | .ok items =>
    items.map (fun item =>
      { name := item.Name, resourceType := kind, nspace := ns.getD "",
        versionStr := item.ResourceVersion })

/-- The observations made for one resource type, with the number of list calls
issued before it; returns the updated call count as well. -/
def resourceObservations (c : Cluster) (namespaces : List String) (n : Nat)
    (apiResource : apiResourceInfo) : List Observation × Nat :=
  let gvr : GroupVersionResource :=
    { Group := apiResource.Group, Version := apiResource.Version,
      Resource := apiResource.Name }
  if apiResource.Namespaced then
    namespaces.foldl
      (fun acc ns =>
        (acc.1 ++ listObservations c acc.2 gvr (some ns) apiResource.Kind, acc.2 + 1))
      ([], n)
  else
    (listObservations c n gvr none apiResource.Kind, n + 1)

/-- All observations of the resource-type loop of a poll, in call order. -/
def pollObservations (c : Cluster) (apiResources : List apiResourceInfo)
    (namespaces : List String) : List Observation :=
  (apiResources.foldl
    (fun acc apiResource =>
      let r := resourceObservations c namespaces acc.2 apiResource
      (acc.1 ++ r.1, r.2))
    ([], 0)).1

/-- The namespaces a poll scans, when it gets that far (`monitor.go`,
lines 76-87). -/
def pollNamespaces (c : Cluster) (m : Monitor) : List String :=
  if m.config.Namespaces.length = 0 then
    match c.namespaces with
    | .error _ => []
    | .ok nsList => m.config.Namespaces ++ nsList
  else m.config.Namespaces

/-! ## Ranked presentation (`tui.go`, lines 82-168) -/

/-- The model of the terminal program (`tui.go`, lines 31-37), without the
monitor handle. -/
structure model where
  config : Config
  resources : List ResourceInfo
  err : Option String
  ready : Bool

/-- The comparison passed to `sort.Slice` (`tui.go`, lines 100-105). -/
def viewLess (a b : ResourceInfo) : Bool :=
  if a.Changes ≠ b.Changes then decide (a.Changes > b.Changes)
  else decide (a.ResourceVersion > b.ResourceVersion)

/-- The requirement of `sort.Slice` on its comparison: a strict weak ordering. -/
structure StrictWeakOrder {α : Type} (less : α → α → Bool) : Prop where
  irrefl : ∀ a, less a a = false
  trans : ∀ a b c, less a b = true → less b c = true → less a c = true
  negTrans : ∀ a b c, less a b = false → less b c = false → less a c = false

/-- The documented behaviour of the library function `sort.Slice`: for a
strict weak ordering the result is a rearrangement of the input in which no
element is less than its predecessor (`sort.SliceIsSorted`). Which algorithm
runs, and so the order of equal elements, is left open. -/
def SortSliceContract
    (sortSlice : (ResourceInfo → ResourceInfo → Bool) → List ResourceInfo → List ResourceInfo) :
    Prop :=
  ∀ less, StrictWeakOrder less → ∀ xs,
    (sortSlice less xs).Perm xs ∧
    List.Chain' (fun a b => less b a = false) (sortSlice less xs)

/-- An executable sort meeting the contract: insertion sort. -/
def insertionSortSlice (less : ResourceInfo → ResourceInfo → Bool)
    (xs : List ResourceInfo) : List ResourceInfo :=
  List.insertionSort (fun a b => less b a = false) xs

/-- The ranked sequence `sortedResources` that `View` builds before truncation
(`tui.go`, lines 98-105). -/
def rankedResources
    (sortSlice : (ResourceInfo → ResourceInfo → Bool) → List ResourceInfo → List ResourceInfo)
    (resources : List ResourceInfo) : List ResourceInfo :=
  sortSlice viewLess resources

/-- What a frame shows: the loading placeholder, the error message, or the
table, given by the records rendered as rows, in order. -/
inductive Frame where
  | loading
  | failure (msg : String)
  | table (rows : List ResourceInfo)
deriving DecidableEq, Repr

/-- The method `model.View` (`tui.go`, lines 82-168). The rendered string is
abstracted to its frame; `none` is the run-time panic of the slice expression
`sortedResources[:m.config.Limit]` on a negative bound. -/
def View
    (sortSlice : (ResourceInfo → ResourceInfo → Bool) → List ResourceInfo → List ResourceInfo)
    (m : model) : Option Frame :=
  if !m.ready then some Frame.loading
  else
    match m.err with
    | some err => some (Frame.failure err)
    | none =>
      let sortedResources := rankedResources sortSlice m.resources
      if (sortedResources.length : Int) > m.config.Limit then
        if m.config.Limit < 0 then none
        else some (Frame.table (sortedResources.take m.config.Limit.toNat))
      else some (Frame.table sortedResources)

end Kflap

namespace Kctx

/-! ## Context renaming (`internal/kctx/tr.go`) -/

/-- ContextChange (`tr.go`, lines 14-17). -/
structure ContextChange where
  OldName : String
  NewName : String
deriving DecidableEq, Repr

/-- A context of the kubeconfig (`clientcmdapi.Context`): the cluster, the
user and the namespace it names. -/
structure Context where
  Cluster : String
  AuthInfo : String
  Namespace : String
deriving DecidableEq, Repr

/-- The kubeconfig (`clientcmdapi.Config`): the two fields the renaming code
reads and writes, the map `Contexts` as an association list. -/
structure Config where
  Contexts : List (String × Context)
  CurrentContext : String
deriving DecidableEq, Repr

/-- Map read `config.Contexts[name]` (the comma-ok form). -/
def contextsGet (contexts : List (String × Context)) (name : String) : Option Context :=
  match contexts with
  | [] => none
  | (k, v) :: rest => if k = name then some v else contextsGet rest name

/-- Map delete `delete(config.Contexts, name)`. -/
def contextsDelete (contexts : List (String × Context)) (name : String) :
    List (String × Context) :=
  contexts.filter (fun kv => !decide (kv.1 = name))

/-- Map write `config.Contexts[name] = context`. -/
def contextsSet (contexts : List (String × Context)) (name : String) (context : Context) :
    List (String × Context) :=
  (name, context) :: contextsDelete contexts name

/-- The names of the contexts of a kubeconfig. -/
def contextNames (config : Config) : List String :=
  config.Contexts.map (fun kv => kv.1)

/-- Body of the loop of `applyContextChanges` (`tr.go`, lines 116-123). -/
def applyChange (config : Config) (change : ContextChange) : Config :=
  match contextsGet config.Contexts change.OldName with
  | some context =>
    let contexts := contextsDelete (contextsSet config.Contexts change.NewName context)
      change.OldName
    if config.CurrentContext = change.OldName then
      Config.mk contexts change.NewName
    else
      Config.mk contexts config.CurrentContext
  | none => config

/-- The function `applyContextChanges` (`tr.go`, lines 114-132): the kubeconfig
handed to `clientcmd.WriteToFile`; the write and the message are effects
outside the model. -/
def applyContextChanges (config : Config) (changes : List ContextChange) : Config :=
  changes.foldl applyChange config

/-- A compiled regular expression (`regexp.Regexp`): the two methods the
renaming code calls. -/
structure Regexp where
  MatchString : String → Bool
  ReplaceAllString : String → String → String

/-- The loop that builds the change list (`tr.go`, lines 34-42 and 76-84); the
contexts are visited in the order of the association list, one of the orders
in which the map may be iterated. -/
def buildChanges (re : Regexp) (replacement : String) (config : Config) : List ContextChange :=
  config.Contexts.foldl
    (fun changes kv =>
      if re.MatchString kv.1 then
        if re.ReplaceAllString kv.1 replacement ≠ kv.1 then
          changes ++ [ContextChange.mk kv.1 (re.ReplaceAllString kv.1 replacement)]
        else changes
      else changes)
    []

/-- The function `ReplaceInContexts` (`tr.go`, lines 19-59) after the regular
expression compiled and the kubeconfig loaded: the kubeconfig it leaves;
`confirmed` is the answer of `confirmChanges`. -/
def ReplaceInContexts (re : Regexp) (replacement : String) (force confirmed : Bool)
    (rawConfig : Config) : Config :=
  let changes := buildChanges re replacement rawConfig
  if changes.length = 0 then rawConfig
  else if !force && !confirmed then rawConfig
  else applyContextChanges rawConfig changes

/-- The function `DeleteFromContexts` (`tr.go`, lines 61-101), likewise. -/
def DeleteFromContexts (re : Regexp) (force confirmed : Bool) (rawConfig : Config) : Config :=
  let changes := buildChanges re "" rawConfig
  if changes.length = 0 then rawConfig
  else if !force && !confirmed then rawConfig
  else applyContextChanges rawConfig changes

/-- The change lists the claim speaks of: the old names are distinct existing
context names and each new name differs from its old name. -/
def wellFormedChanges (config : Config) (changes : List ContextChange) : Prop :=
  (changes.map (fun ch => ch.OldName)).Nodup ∧
  (∀ ch ∈ changes, ch.OldName ∈ contextNames config) ∧
  (∀ ch ∈ changes, ch.NewName ≠ ch.OldName)

/-! ### Concrete inputs -/

/-- The regular expression `-[0-9]$`: a name matches when it ends in a dash
and a digit, and replacing the match by `replacement` swaps that ending. -/
def dashDigit : Regexp :=
  { MatchString := fun s =>
      match s.data.reverse with
      | d :: '-' :: _ => d.isDigit
      | _ => false
    ReplaceAllString := fun s replacement =>
      match s.data.reverse with
      | d :: '-' :: rest =>
        if d.isDigit then String.mk rest.reverse ++ replacement else s
      | _ => s }

/-- The context of the first development cluster. -/
def devOne : Context := { Cluster := "cluster-1", AuthInfo := "user-1", Namespace := "" }

/-- The context of the second development cluster. -/
def devTwo : Context := { Cluster := "cluster-2", AuthInfo := "user-2", Namespace := "" }

/-- A kubeconfig with the contexts `dev-1` (current) and `dev-2`. -/
def devConfig : Config :=
  { Contexts := [("dev-1", devOne), ("dev-2", devTwo)]
    CurrentContext := "dev-1" }

/-- The changes `dev-1 -> dev` and `dev-2 -> dev`. -/
def devChanges : List ContextChange :=
  [ContextChange.mk "dev-1" "dev", ContextChange.mk "dev-2" "dev"]

/-- A kubeconfig with the contexts `a` and `aa`. -/
def chainConfig : Config :=
  { Contexts := [("a", devOne), ("aa", devTwo)]
    CurrentContext := "aa" }

/-- The changes `a -> aa` and `aa -> aaa`. -/
def chainChanges : List ContextChange :=
  [ContextChange.mk "a" "aa", ContextChange.mk "aa" "aaa"]

/-- The changes `dev-1 -> prod-1` and `dev-2 -> prod-2`. -/
def prodChanges : List ContextChange :=
  [ContextChange.mk "dev-1" "prod-1", ContextChange.mk "dev-2" "prod-2"]

end Kctx

namespace Kflap

/-! ## Concrete inputs used below -/

/-- A record of pod `A` whose counter holds the largest `int64`. -/
def recordAtMax : ResourceInfo :=
  { Name := "A", Typ := "Pod", Namespace := "ns", ResourceVersion := 1,
    Changes := 9223372036854775807 }

/-- A table holding `recordAtMax`. -/
def tableAtMax : Table := [("ns/Pod/A", recordAtMax)]

/-- Three observations: pod `A` with a numeric token, pod `B` twice with
tokens that are not numbers. -/
def mixedObservations : List Observation :=
  [ { name := "A", resourceType := "Pod", nspace := "ns", versionStr := "100" },
    { name := "B", resourceType := "Pod", nspace := "ns", versionStr := "abc" },
    { name := "B", resourceType := "Pod", nspace := "ns", versionStr := "" } ]

/-- A catalogue in which two API groups serve a cluster-scoped kind `Widget`. -/
def twoGroupsCatalogue : List APIResourceList :=
  [ { GroupVersion := "one.example.com/v1",
      APIResources :=
        [ { Name := "widgets", Kind := "Widget", Namespaced := false, Verbs := ["list"] } ] },
    { GroupVersion := "two.example.com/v1",
      APIResources :=
        [ { Name := "widgets", Kind := "Widget", Namespaced := false, Verbs := ["list"] } ] } ]

/-- A cluster with `twoGroupsCatalogue` whose first list call returns widget
`x` at version 2 and whose second list call returns widget `x` at version 3. -/
def twoGroupsCluster : Cluster :=
  { catalogue := twoGroupsCatalogue
    namespaces := Except.ok ["a"]
    list := fun n _ _ =>
      if n = 0 then Except.ok [{ Name := "x", ResourceVersion := "2" }]
      else Except.ok [{ Name := "x", ResourceVersion := "3" }] }

/-- A monitor with the default configuration that has seen widget `x` at
version 1. -/
def widgetMonitor : Monitor :=
  { config := { Resources := [], Namespaces := [], Interval := 5, Limit := 20 }
    resources :=
      [("/Widget/x",
        { Name := "x", Typ := "Widget", Namespace := "", ResourceVersion := 1, Changes := 0 })] }

/-- The two descriptors discovered from `twoGroupsCatalogue`. -/
def widgetDescriptors : List apiResourceInfo :=
  [ { Group := "one.example.com", Version := "v1", Name := "widgets", Kind := "Widget",
      Namespaced := false },
    { Group := "two.example.com", Version := "v1", Name := "widgets", Kind := "Widget",
      Namespaced := false } ]

/-- A single descriptor: the namespaced kind `Pod`. -/
def podDescriptors : List apiResourceInfo :=
  [ { Group := "", Version := "v1", Name := "pods", Kind := "Pod", Namespaced := true } ]

/-- A cluster serving pods in namespaces `a` and `b` whose list calls return
pod `x`, at version 7 in the first call and at version 8 in the others. -/
def podCluster : Cluster :=
  { catalogue :=
      [ { GroupVersion := "v1",
          APIResources :=
            [ { Name := "pods", Kind := "Pod", Namespaced := true, Verbs := ["list"] } ] } ]
    namespaces := Except.ok ["a", "b"]
    list := fun n _ _ =>
      if n = 0 then Except.ok [{ Name := "x", ResourceVersion := "7" }]
      else Except.ok [{ Name := "x", ResourceVersion := "8" }] }

/-- A table that holds pod `x` of namespace `a` at version 5 with 3 changes. -/
def podTable : Table :=
  [("a/Pod/x",
    { Name := "x", Typ := "Pod", Namespace := "a", ResourceVersion := 5, Changes := 3 })]

/-- Selects the observations recorded under `key` whose token parses. -/
def countsFor (key : String) (o : Observation) : Bool :=
  decide (o.key = key) && (parseInt64 o.versionStr).isSome

/-- The versions that a sequence of observations records under `key`, in
order: the parsed tokens of the observations with that key whose token parses. -/
def observedVersions (key : String) (obs : List Observation) : List Int :=
  obs.filterMap (fun o => if o.key = key then parseInt64 o.versionStr else none)

/-- Number of changes of version along the sequence that starts with the
stored version and continues with the observed versions. -/
def versionChanges : Int → List Int → Nat
  | _, [] => 0
  | stored, v :: rest => versionChanges v rest + (if v ≠ stored then 1 else 0)

/-- The counter after `n` executions of `changes++`. -/
def incremented (count : Int) (n : Nat) : Int :=
  Nat.iterate (fun x => wrapInt64 (x + 1)) n count

/-- A cluster with `twoGroupsCatalogue` in which both list calls return widget
`x` at version 2. -/
def sameVersionCluster : Cluster :=
  { catalogue := twoGroupsCatalogue
    namespaces := Except.ok ["a"]
    list := fun _ _ _ => Except.ok [{ Name := "x", ResourceVersion := "2" }] }

/-- A snapshot of three records. -/
def threeRecords : List ResourceInfo :=
  [ { Name := "a", Typ := "Pod", Namespace := "n", ResourceVersion := 5, Changes := 0 },
    { Name := "b", Typ := "Pod", Namespace := "n", ResourceVersion := 7, Changes := 2 },
    { Name := "c", Typ := "Pod", Namespace := "n", ResourceVersion := 9, Changes := 0 } ]

/-- A ready model without error holding `resources`, with row limit `limit`. -/
def readyModel (limit : Int) (resources : List ResourceInfo) : model :=
  { config := { Resources := [], Namespaces := [], Interval := 5, Limit := limit }
    resources := resources
    err := none
    ready := true }

/-- A catalogue with the core group (pods, a subresource, a deprecated
resource, a resource that cannot be listed, nodes) and the group `apps`. -/
def sampleCatalogue : List APIResourceList :=
  [ { GroupVersion := "v1",
      APIResources :=
        [ { Name := "pods", Kind := "Pod", Namespaced := true, Verbs := ["get", "list"] },
          { Name := "pods/status", Kind := "Pod", Namespaced := true, Verbs := ["get", "list"] },
          { Name := "endpoints", Kind := "Endpoints", Namespaced := true, Verbs := ["list"] },
          { Name := "bindings", Kind := "Binding", Namespaced := true, Verbs := ["create"] },
          { Name := "nodes", Kind := "Node", Namespaced := false, Verbs := ["list"] } ] },
    { GroupVersion := "apps/v1",
      APIResources :=
        [ { Name := "deployments", Kind := "Deployment", Namespaced := true,
            Verbs := ["list"] } ] } ]

/-- A catalogue whose only group/version string does not parse. -/
def malformedCatalogue : List APIResourceList :=
  [ { GroupVersion := "a/b/c",
      APIResources :=
        [ { Name := "pods", Kind := "Pod", Namespaced := true, Verbs := ["list"] } ] } ]

/-- A configuration with the resource-type filter `filter`. -/
def filterConfig (filter : List String) : Config :=
  { Resources := filter, Namespaces := [], Interval := 5, Limit := 20 }

/-- The descriptor of the core resource `pods`. -/
def podsDescriptor : apiResourceInfo :=
  { Group := "", Version := "v1", Name := "pods", Kind := "Pod", Namespaced := true }

/-- A cluster whose namespace enumeration fails; every list call would
return pod `x` at version 9. -/
def unreachableNamespaces : Cluster :=
  { catalogue := sampleCatalogue
    namespaces := Except.error "connection refused"
    list := fun _ _ _ => Except.ok [{ Name := "x", ResourceVersion := "9" }] }

/-- A cluster serving pods, nodes and deployments in which every list of
deployments fails; pods `p` and nodes `n` are listed at versions 4 and 6. -/
def failingDeployments : Cluster :=
  { catalogue := sampleCatalogue
    namespaces := Except.ok ["a"]
    list := fun _ gvr _ =>
      if gvr.Resource = "deployments" then Except.error "forbidden"
      else if gvr.Resource = "pods" then Except.ok [{ Name := "p", ResourceVersion := "4" }]
      else Except.ok [{ Name := "n", ResourceVersion := "6" }] }

/-! ## Basic facts about the table and the machine integers -/

theorem Table.get_filter_ne (t : Table) (key k : String) (h : key ≠ k) :
    Table.get (t.filter (fun kv => !decide (kv.1 = key))) k = Table.get t k := by
  induction t with
  | nil => rfl
  | cons kv rest ih =>
    obtain ⟨k0, r0⟩ := kv
    by_cases hk : k0 = key
    · subst hk
      simp [List.filter, Table.get, h, ih]
    · simp [List.filter, Table.get, hk, ih]

theorem Table.get_filter_self (t : Table) (key : String) :
    Table.get (t.filter (fun kv => !decide (kv.1 = key))) key = none := by
  induction t with
  | nil => rfl
  | cons kv rest ih =>
    obtain ⟨k0, r0⟩ := kv
    by_cases hk : k0 = key
    · subst hk
      simp [List.filter, ih]
    · simp [List.filter, Table.get, hk, ih]

theorem Table.get_set_self (t : Table) (key : String) (r : ResourceInfo) :
    (t.set key r).get key = some r := by
  simp [Table.set, Table.get]

theorem Table.get_set_ne (t : Table) (key k : String) (r : ResourceInfo) (h : key ≠ k) :
    (t.set key r).get k = t.get k := by
  simp [Table.set, Table.get, h, Table.get_filter_ne t key k h]

theorem wrapInt64_of_range (x : Int) (hlo : minInt64 ≤ x) (hhi : x ≤ maxInt64) :
    wrapInt64 x = x := by
  unfold minInt64 at hlo
  unfold maxInt64 at hhi
  unfold wrapInt64
  omega

theorem wrapInt64_ge_min (x : Int) : minInt64 ≤ wrapInt64 x := by
  unfold minInt64 wrapInt64
  omega

/-! ## Facts about `updateResourceInfo` -/

theorem updateResourceInfo_unparseable (t : Table) (name resourceType nspace s : String)
    (h : parseInt64 s = none) : updateResourceInfo t name resourceType nspace s = t := by
  simp [updateResourceInfo, h]

theorem updateResourceInfo_get_other (t : Table) (name resourceType nspace s k : String)
    (h : resourceKey nspace resourceType name ≠ k) :
    (updateResourceInfo t name resourceType nspace s).get k = t.get k := by
  cases hp : parseInt64 s with
  | none => simp [updateResourceInfo, hp]
  | some v =>
    cases hg : t.get (resourceKey nspace resourceType name) with
    | none =>
      simp only [updateResourceInfo, hp, hg]
      exact Table.get_set_ne _ _ _ _ h
    | some existing =>
      simp only [updateResourceInfo, hp, hg]
      exact Table.get_set_ne _ _ _ _ h

theorem updateResourceInfo_get_new (t : Table) (name resourceType nspace s : String) (v : Int)
    (hp : parseInt64 s = some v)
    (hg : t.get (resourceKey nspace resourceType name) = none) :
    (updateResourceInfo t name resourceType nspace s).get (resourceKey nspace resourceType name)
      = some { Name := name, Typ := resourceType, Namespace := nspace,
               ResourceVersion := v, Changes := 0 } := by
  simp [updateResourceInfo, hp, hg, Table.get_set_self]

theorem updateResourceInfo_get_existing (t : Table) (name resourceType nspace s : String)
    (v : Int) (existing : ResourceInfo) (hp : parseInt64 s = some v)
    (hg : t.get (resourceKey nspace resourceType name) = some existing) :
    (updateResourceInfo t name resourceType nspace s).get (resourceKey nspace resourceType name)
      = some { Name := name, Typ := resourceType, Namespace := nspace,
               ResourceVersion := v,
               Changes := if v ≠ existing.ResourceVersion
                          then wrapInt64 (existing.Changes + 1) else existing.Changes } := by
  simp [updateResourceInfo, hp, hg, Table.get_set_self]

theorem transitions_le (tokens : List String) : transitions tokens + 1 ≤ tokens.length + 1 ∧
    (tokens ≠ [] → transitions tokens + 1 ≤ tokens.length) := by
  induction tokens with
  | nil => simp [transitions]
  | cons a rest ih =>
    cases rest with
    | nil => simp [transitions]
    | cons b rest2 =>
      have h2 := ih.2 (by simp)
      constructor
      · simp only [transitions, List.length_cons] at *
        split <;> omega
      · intro _
        simp only [transitions, List.length_cons] at *
        split <;> omega

/-- Replaying further tokens on a record whose stored version is that of the
previous token adds one change per adjacent pair of differing versions. -/
theorem observeAll_existing (name resourceType nspace : String) (tokens : List String) :
    ∀ (t : Table) (prev : String) (r : ResourceInfo),
      t.get (resourceKey nspace resourceType name) = some r →
      parseInt64 prev = some r.ResourceVersion →
      (∀ tok ∈ tokens, parseInt64 tok ≠ none) →
      0 ≤ r.Changes →
      r.Changes + (transitions (prev :: tokens) : Int) ≤ maxInt64 →
      ∃ r', (observeAll t name resourceType nspace tokens).get
              (resourceKey nspace resourceType name) = some r' ∧
            r'.Changes = r.Changes + (transitions (prev :: tokens) : Int) := by
  induction tokens with
  | nil =>
    intro t prev r hg _ _ _ _
    exact ⟨r, by simpa [observeAll] using hg, by simp [transitions]⟩
  | cons tok rest ih =>
    intro t prev r hg hprev hall hnonneg hbound
    obtain ⟨v, hv⟩ := Option.ne_none_iff_exists'.mp (hall tok (by simp))
    have hstep := updateResourceInfo_get_existing t name resourceType nspace tok v r hv hg
    have htr : transitions (prev :: tok :: rest)
        = (if parseInt64 prev ≠ parseInt64 tok then 1 else 0) + transitions (tok :: rest) := by
      simp [transitions]
    rw [htr] at hbound ⊢
    have hmax : maxInt64 = 9223372036854775807 := rfl
    have hmin : minInt64 = -9223372036854775808 := rfl
    by_cases hvr : v = r.ResourceVersion
    · have hpe : parseInt64 prev = parseInt64 tok := by rw [hprev, hv, hvr]
      simp only [hvr, ne_eq, not_true_eq_false, if_false] at hstep
      simp only [hpe, ne_eq, not_true_eq_false, if_false] at hbound ⊢
      obtain ⟨r', hr', hc'⟩ := ih _ tok _ hstep (by simpa [hvr] using hv)
        (fun x hx => hall x (by simp [hx])) hnonneg (by simpa using hbound)
      exact ⟨r', by simpa [observeAll] using hr', by simpa using hc'⟩
    · have hpe : parseInt64 prev ≠ parseInt64 tok := by
        rw [hprev, hv]
        intro h
        exact hvr (Option.some.inj h).symm
      simp only [ne_eq, hvr, not_false_eq_true, if_true] at hstep
      simp only [ne_eq, hpe, not_false_eq_true, if_true] at hbound ⊢
      have hw : wrapInt64 (r.Changes + 1) = r.Changes + 1 := by
        apply wrapInt64_of_range <;> push_cast at hbound <;> omega
      rw [hw] at hstep
      obtain ⟨r', hr', hc'⟩ := ih _ tok _ hstep (by simpa using hv)
        (fun x hx => hall x (by simp [hx])) (by show 0 ≤ r.Changes + 1; omega)
        (by show r.Changes + 1 + _ ≤ _; push_cast at hbound; omega)
      refine ⟨r', by simpa [observeAll] using hr', ?_⟩
      rw [hc']
      show r.Changes + 1 + _ = _
      push_cast
      omega

/-! ## Key formation -/

theorem slash_split (a : List Char) :
    ∀ (a' r r' : List Char), '/' ∉ a → '/' ∉ a' →
      a ++ '/' :: r = a' ++ '/' :: r' → a = a' ∧ r = r' := by
  induction a with
  | nil =>
    intro a' r r' _ ha' h
    cases a' with
    | nil => simpa using h
    | cons c cs =>
      simp only [List.nil_append, List.cons_append, List.cons.injEq] at h
      exact absurd h.1 (by intro hc; exact ha' (by simp [← hc]))
  | cons c cs ih =>
    intro a' r r' ha ha' h
    cases a' with
    | nil =>
      simp only [List.nil_append, List.cons_append, List.cons.injEq] at h
      exact absurd h.1 (by intro hc; exact ha (by simp [hc]))
    | cons c' cs' =>
      simp only [List.cons_append, List.cons.injEq] at h
      obtain ⟨h1, h2⟩ := ih cs' r r' (fun hm => ha (by simp [hm]))
        (fun hm => ha' (by simp [hm])) h.2
      exact ⟨by rw [h.1, h1], h2⟩

theorem resourceKey_data (nspace resourceType name : String) :
    (resourceKey nspace resourceType name).data
      = nspace.data ++ '/' :: (resourceType.data ++ '/' :: name.data) := by
  simp [resourceKey, String.data_append]

theorem resourceKey_injective (nspace resourceType name nspace' resourceType' name' : String)
    (hns : '/' ∉ nspace.data) (hty : '/' ∉ resourceType.data)
    (hns' : '/' ∉ nspace'.data) (hty' : '/' ∉ resourceType'.data)
    (h : resourceKey nspace resourceType name = resourceKey nspace' resourceType' name') :
    nspace = nspace' ∧ resourceType = resourceType' ∧ name = name' := by
  have hd := congrArg String.data h
  rw [resourceKey_data, resourceKey_data] at hd
  obtain ⟨h1, h2⟩ := slash_split _ _ _ _ hns hns' hd
  obtain ⟨h3, h4⟩ := slash_split _ _ _ _ hty hty' h2
  exact ⟨String.ext h1, String.ext h3, String.ext h4⟩

/-! ## Claims about `updateResourceInfo` -/

/-- C1: starting from a table that does not hold the identity, after a
non-empty sequence of parseable version tokens has been recorded for it by
successive calls of `updateResourceInfo`, its change count is the number of
adjacent positions whose versions differ (0 after the first observation). The
sequence is at most `2^63` tokens long, the range of the `int64` counter. -/
theorem changeCount_counts_transitions (t : Table) (name resourceType nspace : String)
    (tokens : List String)
    (habsent : t.get (resourceKey nspace resourceType name) = none)
    (hne : tokens ≠ [])
    (hparse : ∀ tok ∈ tokens, parseInt64 tok ≠ none)
    (hlen : tokens.length ≤ 9223372036854775808) :
    ((observeAll t name resourceType nspace tokens).get
        (resourceKey nspace resourceType name)).map (fun r => r.Changes)
      = some (transitions tokens : Int) := by
  cases tokens with
  | nil => exact absurd rfl hne
  | cons tok rest =>
    obtain ⟨v, hv⟩ := Option.ne_none_iff_exists'.mp (hparse tok (by simp))
    have hfirst := updateResourceInfo_get_new t name resourceType nspace tok v hv habsent
    have hle := (transitions_le (tok :: rest)).2 (by simp)
    have hmax : maxInt64 = 9223372036854775807 := rfl
    obtain ⟨r', hr', hc'⟩ := observeAll_existing name resourceType nspace rest _ tok _ hfirst
      (by simpa using hv) (fun x hx => hparse x (by simp [hx])) (by simp)
      (by show (0 : Int) + _ ≤ _; rw [hmax]; omega)
    have hobs : observeAll t name resourceType nspace (tok :: rest)
        = observeAll (updateResourceInfo t name resourceType nspace tok)
            name resourceType nspace rest := by
      simp [observeAll]
    rw [hobs, hr']
    simp only [Option.map_some', Option.some.injEq]
    rw [hc']
    show (0 : Int) + _ = _
    omega

/-- Witness of C1: tokens "100", "100", "105" recorded for a new identity give
one change. -/
theorem changeCount_counts_transitions_witness :
    ((observeAll [] "A" "Pod" "ns" ["100", "100", "105"]).get
        (resourceKey "ns" "Pod" "A")).map (fun r => r.Changes)
      = some (transitions ["100", "100", "105"] : Int)
    ∧ transitions ["100", "100", "105"] = 1
    ∧ transitions ["100"] = 0 :=
  ⟨changeCount_counts_transitions [] "A" "Pod" "ns" ["100", "100", "105"]
    (by decide) (by decide) (by decide) (by decide), by decide, by decide⟩

/-- C2: after a call of `updateResourceInfo` whose token parses to `v`, the
record stored under the identity's key has `ResourceVersion = v`, whatever the
table held before. -/
theorem lastVersionToken_is_latest (t : Table) (name resourceType nspace versionStr : String)
    (v : Int) (hparse : parseInt64 versionStr = some v) :
    ((updateResourceInfo t name resourceType nspace versionStr).get
        (resourceKey nspace resourceType name)).map (fun r => r.ResourceVersion) = some v := by
  cases hg : t.get (resourceKey nspace resourceType name) with
  | none =>
    rw [updateResourceInfo_get_new t name resourceType nspace versionStr v hparse hg]
    rfl
  | some existing =>
    rw [updateResourceInfo_get_existing t name resourceType nspace versionStr v existing hparse hg]
    rfl

/-- Witness of C2: token "105" recorded over a stored version 100. -/
theorem lastVersionToken_is_latest_witness :
    parseInt64 "105" = some 105 ∧
    ((updateResourceInfo (updateResourceInfo [] "A" "Pod" "ns" "100") "A" "Pod" "ns" "105").get
        (resourceKey "ns" "Pod" "A")).map (fun r => r.ResourceVersion) = some 105 :=
  ⟨by decide,
   lastVersionToken_is_latest (updateResourceInfo [] "A" "Pod" "ns" "100") "A" "Pod" "ns" "105"
     105 (by decide)⟩

/-- C4 as stated fails: the identities (`a/b`, `c`, `d`) and (`a`, `b/c`, `d`)
differ, yet share the key `a/b/c/d`, and an update for the first overwrites the
record of the second. -/
theorem distinct_identities_share_key :
    (("a/b", "c", "d") : String × String × String) ≠ ("a", "b/c", "d") ∧
    resourceKey "a/b" "c" "d" = resourceKey "a" "b/c" "d" ∧
    (updateResourceInfo [] "d" "b/c" "a" "1").get (resourceKey "a" "b/c" "d")
      = some { Name := "d", Typ := "b/c", Namespace := "a", ResourceVersion := 1, Changes := 0 } ∧
    (updateResourceInfo (updateResourceInfo [] "d" "b/c" "a" "1") "d" "c" "a/b" "2").get
        (resourceKey "a" "b/c" "d")
      = some { Name := "d", Typ := "c", Namespace := "a/b", ResourceVersion := 2, Changes := 1 } := by
  decide

/-- C4, amended: two identities that differ in at least one component, and
whose namespace and resource type contain no `/`, have different keys, so an
update for one leaves the record of the other as it was (absent or present). -/
theorem distinct_identities_distinct_keys
    (nspace resourceType name nspace' resourceType' name' : String)
    (hns : '/' ∉ nspace.data) (hty : '/' ∉ resourceType.data)
    (hns' : '/' ∉ nspace'.data) (hty' : '/' ∉ resourceType'.data)
    (hdiff : (nspace, resourceType, name) ≠ (nspace', resourceType', name')) :
    resourceKey nspace resourceType name ≠ resourceKey nspace' resourceType' name' ∧
    ∀ (t : Table) (versionStr : String),
      (updateResourceInfo t name resourceType nspace versionStr).get
          (resourceKey nspace' resourceType' name')
        = t.get (resourceKey nspace' resourceType' name') := by
  have hkey : resourceKey nspace resourceType name ≠ resourceKey nspace' resourceType' name' := by
    intro h
    obtain ⟨h1, h2, h3⟩ :=
      resourceKey_injective nspace resourceType name nspace' resourceType' name'
        hns hty hns' hty' h
    exact hdiff (by rw [h1, h2, h3])
  exact ⟨hkey, fun t versionStr =>
    updateResourceInfo_get_other t name resourceType nspace versionStr _ hkey⟩

/-- Witness of C4, amended: object `x` in namespace `a` and object `x` in
namespace `b` are two records. -/
theorem distinct_identities_distinct_keys_witness :
    (resourceKey "a" "Pod" "x" ≠ resourceKey "b" "Pod" "x" ∧
     ∀ (t : Table) (versionStr : String),
      (updateResourceInfo t "x" "Pod" "a" versionStr).get (resourceKey "b" "Pod" "x")
        = t.get (resourceKey "b" "Pod" "x")) ∧
    ((updateResourceInfo (updateResourceInfo [] "x" "Pod" "a" "1") "x" "Pod" "b" "2").map
        (fun kv => kv.1)) = ["b/Pod/x", "a/Pod/x"] :=
  ⟨distinct_identities_distinct_keys "a" "Pod" "x" "b" "Pod" "x"
    (by decide) (by decide) (by decide) (by decide) (by decide), by decide⟩

/-- C5 as stated fails: on a record whose counter is the largest `int64`, an
observation of a new version wraps the counter around to the smallest `int64`. -/
theorem changeCount_wraps_at_max :
    (tableAtMax.get (resourceKey "ns" "Pod" "A")).map (fun r => r.Changes)
      = some 9223372036854775807 ∧
    ((updateResourceInfo tableAtMax "A" "Pod" "ns" "2").get
        (resourceKey "ns" "Pod" "A")).map (fun r => r.Changes)
      = some (-9223372036854775808) := by
  decide

/-- C5, amended: after any call of `updateResourceInfo` every key of the table
is still a key, and its change count is not smaller than before as long as the
count before was below the largest `int64`. -/
theorem records_kept_and_counts_monotone (t : Table)
    (name resourceType nspace versionStr key : String) (r : ResourceInfo)
    (hpresent : t.get key = some r) :
    ∃ r', (updateResourceInfo t name resourceType nspace versionStr).get key = some r' ∧
      (r.Changes < maxInt64 → r.Changes ≤ r'.Changes) := by
  by_cases hk : resourceKey nspace resourceType name = key
  · subst hk
    cases hp : parseInt64 versionStr with
    | none =>
      rw [updateResourceInfo_unparseable _ _ _ _ _ hp]
      exact ⟨r, hpresent, fun _ => le_refl _⟩
    | some v =>
      rw [updateResourceInfo_get_existing t name resourceType nspace versionStr v r hp hpresent]
      refine ⟨_, rfl, ?_⟩
      intro hlt
      show r.Changes ≤ (if v ≠ r.ResourceVersion then wrapInt64 (r.Changes + 1) else r.Changes)
      split
      · have hmin := wrapInt64_ge_min (r.Changes + 1)
        by_cases hlo : minInt64 ≤ r.Changes + 1
        · rw [wrapInt64_of_range _ hlo (by omega)]
          omega
        · omega
      · exact le_refl _
  · rw [updateResourceInfo_get_other _ _ _ _ _ _ hk]
    exact ⟨r, hpresent, fun _ => le_refl _⟩

/-- Witness of C5, amended: a second, different version of pod `A` raises its
count from 0 to 1 and keeps the record. -/
theorem records_kept_and_counts_monotone_witness :
    (updateResourceInfo [] "A" "Pod" "ns" "100").get "ns/Pod/A"
      = some { Name := "A", Typ := "Pod", Namespace := "ns", ResourceVersion := 100, Changes := 0 } ∧
    ∃ r', (updateResourceInfo (updateResourceInfo [] "A" "Pod" "ns" "100")
            "A" "Pod" "ns" "105").get "ns/Pod/A" = some r' ∧
      ((0 : Int) < maxInt64 → (0 : Int) ≤ r'.Changes) :=
  ⟨by decide,
   records_kept_and_counts_monotone (updateResourceInfo [] "A" "Pod" "ns" "100")
     "A" "Pod" "ns" "105" "ns/Pod/A"
     { Name := "A", Typ := "Pod", Namespace := "ns", ResourceVersion := 100, Changes := 0 }
     (by decide)⟩

/-! ## A poll as a replay of its observations -/

theorem pollNamespacedResource_eq (c : Cluster) (n : Nat) (t : Table)
    (gvr : GroupVersionResource) (nspace kind : String) :
    (pollNamespacedResource c n t gvr nspace kind).1
      = (listObservations c n gvr (some nspace) kind).foldl Observation.apply t := by
  unfold pollNamespacedResource listObservations
  cases c.list n gvr (some nspace) with
  | error e => rfl
  | ok items =>
    simp only [List.foldl_map]
    rfl

theorem pollClusterResource_eq (c : Cluster) (n : Nat) (t : Table)
    (gvr : GroupVersionResource) (kind : String) :
    (pollClusterResource c n t gvr kind).1
      = (listObservations c n gvr none kind).foldl Observation.apply t := by
  unfold pollClusterResource listObservations
  cases c.list n gvr none with
  | error e => rfl
  | ok items =>
    simp only [List.foldl_map]
    rfl

theorem namespaces_loop_eq (c : Cluster) (gvr : GroupVersionResource) (kind : String)
    (namespaces : List String) :
    ∀ (t : Table) (obs : List Observation) (n : Nat),
      namespaces.foldl
          (fun st ns => ((pollNamespacedResource c st.2 st.1 gvr ns kind).1, st.2 + 1))
          (obs.foldl Observation.apply t, n)
        = ((namespaces.foldl
              (fun acc ns => (acc.1 ++ listObservations c acc.2 gvr (some ns) kind, acc.2 + 1))
              (obs, n)).1.foldl Observation.apply t,
           (namespaces.foldl
              (fun acc ns => (acc.1 ++ listObservations c acc.2 gvr (some ns) kind, acc.2 + 1))
              (obs, n)).2) := by
  induction namespaces with
  | nil => intro t obs n; rfl
  | cons ns rest ih =>
    intro t obs n
    simp only [List.foldl_cons]
    rw [pollNamespacedResource_eq, ← List.foldl_append]
    exact ih t _ (n + 1)

theorem pollResource_eq (c : Cluster) (namespaces : List String) (t : Table) (n : Nat)
    (apiResource : apiResourceInfo) :
    pollResource c namespaces (t, n) apiResource
      = ((resourceObservations c namespaces n apiResource).1.foldl Observation.apply t,
         (resourceObservations c namespaces n apiResource).2) := by
  unfold pollResource resourceObservations
  by_cases hn : apiResource.Namespaced = true
  · simp only [hn, if_true]
    exact namespaces_loop_eq c _ apiResource.Kind namespaces t [] n
  · simp only [hn, Bool.false_eq_true, if_false]
    rw [pollClusterResource_eq]

theorem resources_loop_eq (c : Cluster) (namespaces : List String)
    (apiResources : List apiResourceInfo) :
    ∀ (t : Table) (obs : List Observation) (n : Nat),
      (apiResources.foldl (pollResource c namespaces) (obs.foldl Observation.apply t, n)).1
        = (apiResources.foldl
            (fun acc apiResource =>
              let r := resourceObservations c namespaces acc.2 apiResource
              (acc.1 ++ r.1, r.2))
            (obs, n)).1.foldl Observation.apply t := by
  induction apiResources with
  | nil => intro t obs n; rfl
  | cons a rest ih =>
    intro t obs n
    simp only [List.foldl_cons]
    rw [pollResource_eq, ← List.foldl_append]
    exact ih t _ _

/-- The table after the resource-type loop of a poll is the table before it
with the poll's observations replayed in call order. -/
theorem pollResources_eq_replay (c : Cluster) (apiResources : List apiResourceInfo)
    (namespaces : List String) (t : Table) :
    pollResources c apiResources namespaces t
      = (pollObservations c apiResources namespaces).foldl Observation.apply t :=
  resources_loop_eq c namespaces apiResources t [] 0

theorem replay_uncounted (key : String) (obs : List Observation) :
    ∀ (t : Table), (obs.filter (countsFor key)).length = 0 →
      (obs.foldl Observation.apply t).get key = t.get key := by
  induction obs with
  | nil => intro t _; rfl
  | cons o rest ih =>
    intro t h
    simp only [List.foldl_cons]
    by_cases hc : countsFor key o = true
    · simp [List.filter, hc] at h
    · have hrest : (rest.filter (countsFor key)).length = 0 := by
        simpa [List.filter, hc] using h
      rw [ih _ hrest]
      simp only [countsFor, Bool.and_eq_true, decide_eq_true_eq, not_and] at hc
      by_cases hk : o.key = key
      · have hnone : parseInt64 o.versionStr = none := by
          cases hp : parseInt64 o.versionStr with
          | none => rfl
          | some v => exact absurd (by simp [hp]) (hc hk)
        simp only [Observation.apply]
        rw [updateResourceInfo_unparseable _ _ _ _ _ hnone]
      · simp only [Observation.apply]
        exact updateResourceInfo_get_other _ _ _ _ _ _ hk

theorem replay_counted_once (key : String) (obs : List Observation) :
    ∀ (t : Table) (r : ResourceInfo), t.get key = some r →
      (obs.filter (countsFor key)).length ≤ 1 →
      ∃ r', (obs.foldl Observation.apply t).get key = some r' ∧
        (r'.Changes = r.Changes ∨ r'.Changes = wrapInt64 (r.Changes + 1)) := by
  induction obs with
  | nil => intro t r hg _; exact ⟨r, hg, Or.inl rfl⟩
  | cons o rest ih =>
    intro t r hg h
    simp only [List.foldl_cons]
    by_cases hc : countsFor key o = true
    · have hrest : (rest.filter (countsFor key)).length = 0 := by
        simp only [List.filter, hc, List.length_cons] at h
        omega
      rw [replay_uncounted key rest _ hrest]
      simp only [countsFor, Bool.and_eq_true, decide_eq_true_eq] at hc
      obtain ⟨hk, hsome⟩ := hc
      obtain ⟨v, hv⟩ := Option.isSome_iff_exists.mp hsome
      have hg' : t.get (resourceKey o.nspace o.resourceType o.name) = some r := by
        rw [← hg, ← hk]
        rfl
      have hstep := updateResourceInfo_get_existing t o.name o.resourceType o.nspace
        o.versionStr v r hv hg'
      have hkey : key = resourceKey o.nspace o.resourceType o.name := by
        rw [← hk]
        rfl
      simp only [Observation.apply]
      rw [hkey, hstep]
      refine ⟨_, rfl, ?_⟩
      show (if v ≠ r.ResourceVersion then wrapInt64 (r.Changes + 1) else r.Changes) = r.Changes ∨
        (if v ≠ r.ResourceVersion then wrapInt64 (r.Changes + 1) else r.Changes)
          = wrapInt64 (r.Changes + 1)
      split
      · exact Or.inr rfl
      · exact Or.inl rfl
    · have hrest : (rest.filter (countsFor key)).length ≤ 1 := by
        simpa [List.filter, hc] using h
      have hsame : (Observation.apply t o).get key = some r := by
        have := replay_uncounted key [o] t (by simp [List.filter, hc])
        simpa using this.trans hg
      exact ih _ r hsame hrest

/-! ## Claims about `Poll` -/

theorem Poll_resources (c : Cluster) (m : Monitor) :
    (Poll c m).1.resources = m.resources ∨
    (Poll c m).1.resources
      = pollResources c (discoverResources m.config c.catalogue).1 (pollNamespaces c m)
          m.resources := by
  unfold Poll pollNamespaces
  simp only [discoverResources]
  by_cases hn : m.config.Namespaces.length = 0
  · simp only [hn, if_true]
    cases c.namespaces with
    | error e => exact Or.inl rfl
    | ok nsList => exact Or.inr rfl
  · simp only [hn, if_false]
    exact Or.inr trivial

theorem replay_keeps_absent (key : String) (obs : List Observation) :
    ∀ (t : Table), t.get key = none →
      (∀ o ∈ obs, o.key = key → parseInt64 o.versionStr = none) →
      (obs.foldl Observation.apply t).get key = none := by
  induction obs with
  | nil => intro t habsent _; simpa using habsent
  | cons o rest ih =>
    intro t habsent hbad
    simp only [List.foldl_cons]
    apply ih
    · by_cases hk : o.key = key
      · have hnone := hbad o (by simp) hk
        simp only [Observation.apply]
        rw [updateResourceInfo_unparseable _ _ _ _ _ hnone]
        exact habsent
      · simp only [Observation.apply]
        rw [updateResourceInfo_get_other _ _ _ _ _ _ hk]
        exact habsent
    · intro o' ho' hk'
      exact hbad o' (by simp [ho']) hk'

/-- C3: an observation whose token does not parse leaves the table unchanged;
hence a key that is absent stays absent through any sequence of observations in
which every token observed under that key is unparseable, and through any poll
whose successful list calls return only unparseable tokens under that key. -/
theorem unparseable_never_tracked (t : Table) (key : String) (obs : List Observation)
    (habsent : t.get key = none)
    (hbad : ∀ o ∈ obs, o.key = key → parseInt64 o.versionStr = none) :
    (∀ (t' : Table) (name resourceType nspace versionStr : String),
        parseInt64 versionStr = none →
        updateResourceInfo t' name resourceType nspace versionStr = t') ∧
    (obs.foldl Observation.apply t).get key = none ∧
    (∀ (c : Cluster) (config : Config),
        (∀ o ∈ pollObservations c (discoverResources config c.catalogue).1
                (pollNamespaces c { config := config, resources := t }),
            o.key = key → parseInt64 o.versionStr = none) →
        (Poll c { config := config, resources := t }).1.resources.get key = none) := by
  refine ⟨fun t' name resourceType nspace versionStr h =>
    updateResourceInfo_unparseable t' name resourceType nspace versionStr h,
    replay_keeps_absent key obs t habsent hbad, ?_⟩
  intro c config hpoll
  rcases Poll_resources c { config := config, resources := t } with h | h
  · rw [h]
    exact habsent
  · rw [h, pollResources_eq_replay]
    exact replay_keeps_absent key _ t habsent hpoll

/-- Witness of C3: pod `B` is only ever seen with unparseable tokens and is
not a key afterwards. -/
theorem unparseable_never_tracked_witness :
    (∀ (t' : Table) (name resourceType nspace versionStr : String),
        parseInt64 versionStr = none →
        updateResourceInfo t' name resourceType nspace versionStr = t') ∧
    (mixedObservations.foldl Observation.apply []).get "ns/Pod/B" = none ∧
    (∀ (c : Cluster) (config : Config),
        (∀ o ∈ pollObservations c (discoverResources config c.catalogue).1
                (pollNamespaces c { config := config, resources := [] }),
            o.key = "ns/Pod/B" → parseInt64 o.versionStr = none) →
        (Poll c { config := config, resources := [] }).1.resources.get "ns/Pod/B" = none) :=
  unparseable_never_tracked [] "ns/Pod/B" mixedObservations (by decide) (by decide)

/-- C6 as stated fails: two API groups serve the kind `Widget`, both list
calls return widget `x`, at versions 2 and 3, and the single poll raises the
change count of `/Widget/x` from 0 to 2. -/
theorem poll_increments_twice :
    (widgetMonitor.resources.get "/Widget/x").map (fun r => r.Changes) = some 0 ∧
    (Poll twoGroupsCluster widgetMonitor).2 = none ∧
    ((Poll twoGroupsCluster widgetMonitor).1.resources.get "/Widget/x").map
        (fun r => r.Changes) = some 2 ∧
    (discoverResources widgetMonitor.config twoGroupsCatalogue).1 = widgetDescriptors ∧
    ((pollResources twoGroupsCluster widgetDescriptors ["a"] widgetMonitor.resources).get
        "/Widget/x").map (fun r => r.Changes) = some 2 := by
  decide

/-! ## Ranked presentation -/

theorem viewLess_false_iff (s r : ResourceInfo) :
    viewLess s r = false ↔
      (r.Changes > s.Changes ∨ (r.Changes = s.Changes ∧ r.ResourceVersion ≥ s.ResourceVersion)) := by
  unfold viewLess
  by_cases h : s.Changes = r.Changes
  · simp only [h, ne_eq, not_true_eq_false, if_false, decide_eq_false_iff_not, not_lt]
    constructor
    · intro h'
      exact Or.inr ⟨trivial, h'⟩
    · rintro (h' | ⟨_, h'⟩)
      · omega
      · exact h'
  · simp only [ne_eq, h, not_false_eq_true, if_true, decide_eq_false_iff_not, not_lt]
    constructor
    · intro h'
      exact Or.inl (by omega)
    · rintro (h' | ⟨h', _⟩)
      · omega
      · exact absurd h'.symm h

theorem viewLess_true_iff (a b : ResourceInfo) :
    viewLess a b = true ↔
      (a.Changes > b.Changes ∨ (a.Changes = b.Changes ∧ a.ResourceVersion > b.ResourceVersion)) := by
  unfold viewLess
  by_cases h : a.Changes = b.Changes
  · simp [h]
  · simp only [ne_eq, h, not_false_eq_true, if_true, decide_eq_true_eq, false_and, or_false]

/-- The comparison of `View` is a strict weak ordering, as `sort.Slice` requires. -/
theorem viewLess_strictWeakOrder : StrictWeakOrder viewLess where
  irrefl := by
    intro a
    simp [viewLess]
  trans := by
    intro a b c hab hbc
    rw [viewLess_true_iff] at hab hbc ⊢
    omega
  negTrans := by
    intro a b c hab hbc
    rw [viewLess_false_iff] at hab hbc ⊢
    omega

/-- Insertion sort meets the contract of `sort.Slice`. -/
theorem insertionSortSlice_contract : SortSliceContract insertionSortSlice := by
  intro less hless xs
  have htotal : IsTotal ResourceInfo (fun a b => less b a = false) := by
    constructor
    intro a b
    by_cases hba : less b a = false
    · exact Or.inl hba
    · right
      have hba' : less b a = true := by simpa using hba
      cases hab : less a b with
      | false => rfl
      | true =>
        have := hless.trans a b a hab hba'
        rw [hless.irrefl a] at this
        exact absurd this (by simp)
  have htrans : IsTrans ResourceInfo (fun a b => less b a = false) := by
    constructor
    intro a b c hab hbc
    exact hless.negTrans c b a hbc hab
  refine ⟨List.perm_insertionSort _ xs, ?_⟩
  exact (List.sorted_insertionSort (fun a b => less b a = false) xs).chain'

/-- C7: whatever algorithm `sort.Slice` runs, the ranked sequence that `View`
builds before truncation is a permutation of the snapshot in which every two
consecutive rows `r`, `s` satisfy `r.Changes > s.Changes`, or equal change
counts and `r.ResourceVersion ≥ s.ResourceVersion`. -/
theorem ranked_is_ordered_permutation
    (sortSlice : (ResourceInfo → ResourceInfo → Bool) → List ResourceInfo → List ResourceInfo)
    (hsort : SortSliceContract sortSlice) (snapshot : List ResourceInfo) :
    (rankedResources sortSlice snapshot).Perm snapshot ∧
    List.Chain'
      (fun r s => r.Changes > s.Changes ∨
        (r.Changes = s.Changes ∧ r.ResourceVersion ≥ s.ResourceVersion))
      (rankedResources sortSlice snapshot) := by
  obtain ⟨hperm, hchain⟩ := hsort viewLess viewLess_strictWeakOrder snapshot
  refine ⟨hperm, ?_⟩
  exact hchain.imp (fun r s h => (viewLess_false_iff s r).mp h)

/-- Witness of C7: three records ranked by insertion sort. -/
theorem ranked_is_ordered_permutation_witness :
    ((rankedResources insertionSortSlice threeRecords).Perm threeRecords ∧
     List.Chain'
      (fun r s => r.Changes > s.Changes ∨
        (r.Changes = s.Changes ∧ r.ResourceVersion ≥ s.ResourceVersion))
      (rankedResources insertionSortSlice threeRecords)) ∧
    (rankedResources insertionSortSlice threeRecords).map (fun r => r.Name) = ["b", "c", "a"] :=
  ⟨ranked_is_ordered_permutation insertionSortSlice insertionSortSlice_contract threeRecords,
   by decide⟩

/-- C8 as stated fails: with the row limit -1 the slice expression panics and
`View` renders nothing, for the empty snapshot as for a snapshot of three
records. -/
theorem view_panics_on_negative_limit :
    View insertionSortSlice (readyModel (-1) []) = none ∧
    View insertionSortSlice (readyModel (-1) threeRecords) = none := by
  decide

/-- C8, amended: for a ready model without error and a row limit `L ≥ 0`,
`View` renders a table whose rows are the first `L` entries of the ranked
order: exactly `L` rows when the snapshot holds more than `L` records, and the
whole ranked sequence otherwise. -/
theorem view_truncates_to_limit
    (sortSlice : (ResourceInfo → ResourceInfo → Bool) → List ResourceInfo → List ResourceInfo)
    (hsort : SortSliceContract sortSlice) (m : model)
    (hready : m.ready = true) (herr : m.err = none) (hlimit : 0 ≤ m.config.Limit) :
    ∃ rows, View sortSlice m = some (Frame.table rows) ∧
      rows = (rankedResources sortSlice m.resources).take m.config.Limit.toNat ∧
      ((m.resources.length : Int) > m.config.Limit → (rows.length : Int) = m.config.Limit) ∧
      ((m.resources.length : Int) ≤ m.config.Limit →
        rows = rankedResources sortSlice m.resources ∧ rows.length = m.resources.length) := by
  have hlen : (rankedResources sortSlice m.resources).length = m.resources.length :=
    (hsort viewLess viewLess_strictWeakOrder m.resources).1.length_eq
  unfold View
  simp only [hready, Bool.not_true, Bool.false_eq_true, if_false, herr]
  by_cases hgt : ((rankedResources sortSlice m.resources).length : Int) > m.config.Limit
  · simp only [hgt, if_true, not_lt.mpr hlimit, if_false]
    refine ⟨_, rfl, rfl, ?_, ?_⟩
    · intro _
      rw [List.length_take]
      omega
    · intro hle
      omega
  · simp only [hgt, if_false]
    have htake : (rankedResources sortSlice m.resources).take m.config.Limit.toNat
        = rankedResources sortSlice m.resources := by
      apply List.take_of_length_le
      omega
    refine ⟨_, rfl, htake.symm, ?_, ?_⟩
    · intro hgt'
      omega
    · intro _
      exact ⟨rfl, hlen⟩

/-- Witness of C8, amended: three records under the row limit 2 give the two
top-ranked rows; under the row limit 5 all three. -/
theorem view_truncates_to_limit_witness :
    (∃ rows, View insertionSortSlice (readyModel 2 threeRecords) = some (Frame.table rows) ∧
      rows = (rankedResources insertionSortSlice threeRecords).take (2 : Int).toNat ∧
      (((threeRecords.length : Int) > 2 → (rows.length : Int) = 2)) ∧
      ((threeRecords.length : Int) ≤ 2 →
        rows = rankedResources insertionSortSlice threeRecords ∧
        rows.length = threeRecords.length)) ∧
    (View insertionSortSlice (readyModel 2 threeRecords)).map
        (fun f => match f with
          | Frame.table rows => rows.map (fun r => r.Name)
          | _ => []) = some ["b", "c"] ∧
    (View insertionSortSlice (readyModel 5 threeRecords)).map
        (fun f => match f with
          | Frame.table rows => rows.map (fun r => r.Name)
          | _ => []) = some ["b", "c", "a"] :=
  ⟨view_truncates_to_limit insertionSortSlice insertionSortSlice_contract
    (readyModel 2 threeRecords) rfl rfl (by decide), by decide, by decide⟩

/-! ## Resource discovery -/

theorem contains_slash_iff (s : String) : contains s "/" = true ↔ '/' ∈ s.data := by
  have h1 : ("/" : String).length = 1 := by decide
  have h2 : ("/" : String).data = ['/'] := rfl
  unfold contains
  rw [h1, h2]
  simp only [List.any_eq_true, List.mem_range, decide_eq_true_eq]
  constructor
  · rintro ⟨i, _, hi⟩
    have hmem : '/' ∈ (s.data.drop i).take 1 := by rw [hi]; simp
    exact List.mem_of_mem_drop (List.mem_of_mem_take hmem)
  · intro hmem
    obtain ⟨i, hi, hget⟩ := List.getElem_of_mem hmem
    refine ⟨i, ?_, ?_⟩
    · have : s.length = s.data.length := rfl
      omega
    · rw [List.drop_eq_getElem_cons hi, hget]
      simp

theorem hasVerb_iff (verbs : List String) (verb : String) :
    hasVerb verbs verb = true ↔ verb ∈ verbs := by
  unfold hasVerb
  simp only [List.any_eq_true, decide_eq_true_eq]
  constructor
  · rintro ⟨v, hv, rfl⟩
    exact hv
  · intro h
    exact ⟨verb, h, rfl⟩

theorem subresource_test_iff (name : String) :
    (decide (name.length > 0) &&
      (decide (name.data.getLast? = some '/') || contains name "/")) = true
      ↔ '/' ∈ name.data := by
  simp only [Bool.and_eq_true, Bool.or_eq_true, decide_eq_true_eq]
  constructor
  · rintro ⟨_, h | h⟩
    · exact List.mem_of_getLast?_eq_some h
    · exact (contains_slash_iff name).mp h
  · intro h
    refine ⟨?_, Or.inr ((contains_slash_iff name).mpr h)⟩
    have : name.length = name.data.length := rfl
    have := List.length_pos_of_mem h
    omega

theorem resourceFilter_length (config : Config) :
    (resourceFilter config).length > 0 ↔ config.Resources ≠ [] := by
  unfold resourceFilter
  constructor
  · intro h he
    rw [he] at h
    simp at h
  · intro h
    cases hr : config.Resources with
    | nil => exact absurd hr h
    | cons a rest =>
      have hmem : a ∈ (a :: rest).dedup := List.mem_dedup.mpr (by simp)
      exact List.length_pos_of_mem hmem

theorem mem_resourceFilter (config : Config) (x : String) :
    x ∈ resourceFilter config ↔ x ∈ config.Resources := by
  unfold resourceFilter
  exact List.mem_dedup

theorem discoverStep_eq (filter : List String) (groupVersion : String) (gv : String × String)
    (result : List apiResourceInfo) (e : APIResource) :
    discoverStep filter groupVersion gv result e
      = if discoverKeeps filter groupVersion e = true then result ++ [descriptorOf gv e]
        else result := by
  unfold discoverStep discoverKeeps descriptorOf
  by_cases h1 : (decide (e.Name.length > 0) &&
      (decide (e.Name.data.getLast? = some '/') || contains e.Name "/")) = true
  · simp [h1]
  · by_cases h2 : (match deprecatedResources groupVersion with
        | some deprecated => deprecated e.Name
        | none => false) = true
    · simp [h1, h2]
    · by_cases h3 : hasVerb e.Verbs "list" = true
      · by_cases h4 : (decide (filter.length > 0) &&
            (!decide (e.Name ∈ filter) && !decide (e.Kind ∈ filter))) = true
        · simp [h1, h2, h3, h4]
        · simp [h1, h2, h3, h4]
      · simp [h1, h2, h3]

theorem mem_inner_loop (filter : List String) (groupVersion : String) (gv : String × String)
    (d : apiResourceInfo) (entries : List APIResource) :
    ∀ (result : List apiResourceInfo),
      d ∈ entries.foldl (discoverStep filter groupVersion gv) result ↔
        d ∈ result ∨
        ∃ e ∈ entries, discoverKeeps filter groupVersion e = true ∧ d = descriptorOf gv e := by
  induction entries with
  | nil => intro result; simp
  | cons e rest ih =>
    intro result
    simp only [List.foldl_cons]
    rw [ih, discoverStep_eq]
    by_cases hk : discoverKeeps filter groupVersion e = true
    · simp only [hk, if_true, List.mem_append, List.mem_singleton, List.mem_cons,
        exists_eq_or_imp, true_and]
      tauto
    · simp only [hk, if_false, List.mem_cons, exists_eq_or_imp, false_and, false_or,
        Bool.false_eq_true]

theorem mem_outer_loop (filter : List String) (d : apiResourceInfo)
    (catalogue : List APIResourceList) :
    ∀ (result : List apiResourceInfo),
      d ∈ catalogue.foldl
          (fun result apiResourceList =>
            match ParseGroupVersion apiResourceList.GroupVersion with
            | none => result
            | some gv =>
              apiResourceList.APIResources.foldl
                (discoverStep filter apiResourceList.GroupVersion gv) result)
          result ↔
        d ∈ result ∨
        ∃ l ∈ catalogue, ∃ gv, ParseGroupVersion l.GroupVersion = some gv ∧
          ∃ e ∈ l.APIResources, discoverKeeps filter l.GroupVersion e = true ∧
            d = descriptorOf gv e := by
  induction catalogue with
  | nil => intro result; simp
  | cons l rest ih =>
    intro result
    simp only [List.foldl_cons]
    rw [ih]
    cases hp : ParseGroupVersion l.GroupVersion with
    | none =>
      simp only [List.mem_cons, exists_eq_or_imp, hp, false_and, exists_false, false_or,
        reduceCtorEq]
    | some gv =>
      simp only [mem_inner_loop, List.mem_cons, exists_eq_or_imp, hp, Option.some.injEq,
        exists_eq_left', or_assoc]

/-- A descriptor is discovered exactly when it is built from a catalogue entry
of a group/version that parses and that none of the skip tests rejects. -/
theorem mem_discoverResources (config : Config) (catalogue : List APIResourceList)
    (d : apiResourceInfo) :
    d ∈ (discoverResources config catalogue).1 ↔
      ∃ l ∈ catalogue, ∃ gv, ParseGroupVersion l.GroupVersion = some gv ∧
        ∃ e ∈ l.APIResources, discoverKeeps (resourceFilter config) l.GroupVersion e = true ∧
          d = descriptorOf gv e := by
  unfold discoverResources
  simp only []
  rw [mem_outer_loop]
  simp

theorem discoverKeeps_iff (config : Config) (groupVersion : String) (e : APIResource) :
    discoverKeeps (resourceFilter config) groupVersion e = true ↔
      '/' ∉ e.Name.data ∧
      (∀ deprecated, deprecatedResources groupVersion = some deprecated →
        deprecated e.Name = false) ∧
      "list" ∈ e.Verbs ∧
      (config.Resources = [] ∨ e.Name ∈ config.Resources ∨ e.Kind ∈ config.Resources) := by
  unfold discoverKeeps
  simp only [Bool.and_eq_true, Bool.not_eq_true']
  rw [← Bool.not_eq_true, subresource_test_iff, hasVerb_iff]
  have hfilter : (decide ((resourceFilter config).length > 0) &&
      (!decide (e.Name ∈ resourceFilter config) && !decide (e.Kind ∈ resourceFilter config)))
        = false ↔
      (config.Resources = [] ∨ e.Name ∈ config.Resources ∨ e.Kind ∈ config.Resources) := by
    rw [← Bool.not_eq_true]
    simp only [Bool.and_eq_true, decide_eq_true_eq, Bool.not_eq_true', decide_eq_false_iff_not,
      resourceFilter_length, mem_resourceFilter]
    tauto
  rw [hfilter]
  have hdep : (match deprecatedResources groupVersion with
        | some deprecated => deprecated e.Name
        | none => false) = false ↔
      (∀ deprecated, deprecatedResources groupVersion = some deprecated →
        deprecated e.Name = false) := by
    cases deprecatedResources groupVersion with
    | none => simp
    | some dep => simp
  rw [hdep]
  tauto

/-- C9: no descriptor returned by `discoverResources` has a plural name that
contains `/`, and every returned descriptor carries the name, kind and scope
of a catalogue entry whose verb list contains "list". -/
theorem discovered_are_listable_resources (config : Config)
    (catalogue : List APIResourceList) (d : apiResourceInfo)
    (hd : d ∈ (discoverResources config catalogue).1) :
    '/' ∉ d.Name.data ∧
    ∃ l ∈ catalogue, ∃ e ∈ l.APIResources,
      d.Name = e.Name ∧ d.Kind = e.Kind ∧ d.Namespaced = e.Namespaced ∧ "list" ∈ e.Verbs := by
  obtain ⟨l, hl, gv, _, e, he, hkeep, hde⟩ := (mem_discoverResources config catalogue d).mp hd
  obtain ⟨hslash, _, hlist, _⟩ := (discoverKeeps_iff config l.GroupVersion e).mp hkeep
  subst hde
  exact ⟨hslash, l, hl, e, he, rfl, rfl, rfl, hlist⟩

/-- Witness of C9: discovery over the sample catalogue returns pods, nodes and
deployments, and the pods descriptor comes from a listable entry without `/`. -/
theorem discovered_are_listable_resources_witness :
    ('/' ∉ podsDescriptor.Name.data ∧
     ∃ l ∈ sampleCatalogue, ∃ e ∈ l.APIResources,
      podsDescriptor.Name = e.Name ∧ podsDescriptor.Kind = e.Kind ∧
      podsDescriptor.Namespaced = e.Namespaced ∧ "list" ∈ e.Verbs) ∧
    (discoverResources (filterConfig []) sampleCatalogue).1.map (fun d => d.Name)
      = ["pods", "nodes", "deployments"] :=
  ⟨discovered_are_listable_resources (filterConfig []) sampleCatalogue podsDescriptor
    (by decide), by decide⟩

/-- C10 as stated fails: under the filter `["pods"]` the entry `pods` of a
group/version list whose string is `a/b/c` is listable, is no subresource, is
not in the deprecated table and matches the filter, yet it is not returned,
because the group/version string does not parse. -/
theorem matching_entry_of_malformed_group_dropped :
    (∃ l ∈ malformedCatalogue, ∃ e ∈ l.APIResources,
      "list" ∈ e.Verbs ∧ '/' ∉ e.Name.data ∧
      (deprecatedResources l.GroupVersion).isNone = true ∧
      e.Name ∈ (filterConfig ["pods"]).Resources) ∧
    ParseGroupVersion "a/b/c" = none ∧
    (discoverResources (filterConfig ["pods"]) malformedCatalogue).1 = [] := by
  decide

/-- C10, amended: with a non-empty filter every returned descriptor has a
plural name or kind equal to a filter entry; and, for any filter, every
catalogue entry of a group/version list whose string parses, that is no
subresource, is not in the deprecated table, is listable and, if the filter is
non-empty, has a plural name or kind equal to a filter entry, is returned. -/
theorem discovery_applies_filter (config : Config) (catalogue : List APIResourceList) :
    (config.Resources ≠ [] →
      ∀ d ∈ (discoverResources config catalogue).1,
        d.Name ∈ config.Resources ∨ d.Kind ∈ config.Resources) ∧
    (∀ l ∈ catalogue, ∀ gv, ParseGroupVersion l.GroupVersion = some gv →
      ∀ e ∈ l.APIResources,
        '/' ∉ e.Name.data →
        (∀ deprecated, deprecatedResources l.GroupVersion = some deprecated →
          deprecated e.Name = false) →
        "list" ∈ e.Verbs →
        (config.Resources = [] ∨ e.Name ∈ config.Resources ∨ e.Kind ∈ config.Resources) →
        descriptorOf gv e ∈ (discoverResources config catalogue).1) := by
  constructor
  · intro hne d hd
    obtain ⟨l, _, gv, _, e, _, hkeep, hde⟩ := (mem_discoverResources config catalogue d).mp hd
    obtain ⟨_, _, _, hf⟩ := (discoverKeeps_iff config l.GroupVersion e).mp hkeep
    subst hde
    rcases hf with h | h | h
    · exact absurd h hne
    · exact Or.inl h
    · exact Or.inr h
  · intro l hl gv hgv e he hslash hdep hlist hf
    exact (mem_discoverResources config catalogue _).mpr
      ⟨l, hl, gv, hgv, e, he,
        (discoverKeeps_iff config l.GroupVersion e).mpr ⟨hslash, hdep, hlist, hf⟩, rfl⟩

/-- Witness of C10, amended: under the filter `["pods"]` discovery over the
sample catalogue returns the pods descriptor and nothing else; under the empty
filter it returns pods, nodes and deployments. -/
theorem discovery_applies_filter_witness :
    (∀ d ∈ (discoverResources (filterConfig ["pods"]) sampleCatalogue).1,
        d.Name ∈ ["pods"] ∨ d.Kind ∈ ["pods"]) ∧
    (discoverResources (filterConfig ["pods"]) sampleCatalogue).1 = [podsDescriptor] ∧
    (discoverResources (filterConfig []) sampleCatalogue).1.map (fun d => d.Name)
      = ["pods", "nodes", "deployments"] :=
  ⟨(discovery_applies_filter (filterConfig ["pods"]) sampleCatalogue).1 (by decide),
   by decide, by decide⟩

/-! ## Error handling of `Poll` -/

theorem Poll_filtered (c : Cluster) (m : Monitor) (hns : m.config.Namespaces ≠ []) :
    Poll c m =
      (Monitor.mk m.config
        (pollResources c (discoverResources m.config c.catalogue).1 m.config.Namespaces
          m.resources), none) := by
  have hlen : ¬ m.config.Namespaces.length = 0 := by
    intro h
    exact hns (List.length_eq_zero.mp h)
  unfold Poll
  simp only [discoverResources, hlen, if_false]

theorem Poll_enumerated (c : Cluster) (m : Monitor) (nsList : List String)
    (hempty : m.config.Namespaces = []) (hok : c.namespaces = Except.ok nsList) :
    Poll c m =
      (Monitor.mk m.config
        (pollResources c (discoverResources m.config c.catalogue).1
          (m.config.Namespaces ++ nsList) m.resources), none) := by
  unfold Poll
  simp only [discoverResources, hempty, List.length_nil, if_true, hok]

theorem Poll_enumeration_failed (c : Cluster) (m : Monitor) (err : String)
    (hempty : m.config.Namespaces = []) (hfail : c.namespaces = Except.error err) :
    Poll c m = (m, some ("error listing namespaces: " ++ err)) := by
  unfold Poll
  simp only [discoverResources, hempty, List.length_nil, if_true, hfail]

/-- C11: with an empty namespace filter, a failing namespace enumeration makes
`Poll` return an error and leave the monitor, and so the table, as it was;
with a non-empty filter `Poll` returns no error and its result does not depend
on the outcome of the namespace enumeration, which is never consulted. -/
theorem namespace_enumeration_failure_aborts (c : Cluster) (m : Monitor) :
    (m.config.Namespaces = [] → ∀ err, c.namespaces = Except.error err →
      (Poll c m).2 = some ("error listing namespaces: " ++ err) ∧
      (Poll c m).1 = m ∧ (Poll c m).1.resources = m.resources) ∧
    (m.config.Namespaces ≠ [] →
      (Poll c m).2 = none ∧
      ∀ outcome : Except String (List String),
        Poll { c with namespaces := outcome } m = Poll c m) := by
  constructor
  · intro hempty err hfail
    rw [Poll_enumeration_failed c m err hempty hfail]
    exact ⟨rfl, rfl, rfl⟩
  · intro hns
    refine ⟨by rw [Poll_filtered c m hns], ?_⟩
    intro outcome
    rw [Poll_filtered c m hns, Poll_filtered _ m hns]
    rfl

/-- Witness of C11: the enumeration fails under the empty filter and the table
`podTable` is returned untouched with an error; under the filter `["a"]` the
same cluster is polled without error. -/
theorem namespace_enumeration_failure_aborts_witness :
    ((Poll unreachableNamespaces { config := filterConfig [], resources := podTable }).2
        = some ("error listing namespaces: " ++ "connection refused") ∧
     (Poll unreachableNamespaces { config := filterConfig [], resources := podTable }).1
        = { config := filterConfig [], resources := podTable } ∧
     (Poll unreachableNamespaces { config := filterConfig [], resources := podTable }).1.resources
        = podTable) ∧
    (Poll unreachableNamespaces
        { config := { Resources := [], Namespaces := ["a"], Interval := 5, Limit := 20 },
          resources := podTable }).2 = none ∧
    ((Poll unreachableNamespaces
        { config := { Resources := [], Namespaces := ["a"], Interval := 5, Limit := 20 },
          resources := podTable }).1.resources.get "a/Pod/x").map
      (fun r => (r.ResourceVersion, r.Changes)) = some (9, 4) :=
  ⟨(namespace_enumeration_failure_aborts unreachableNamespaces
      { config := filterConfig [], resources := podTable }).1 rfl "connection refused" rfl,
   by decide, by decide⟩

theorem updateResourceInfo_keeps_key (t : Table) (name resourceType nspace s key : String)
    (h : t.get key ≠ none) :
    (updateResourceInfo t name resourceType nspace s).get key ≠ none := by
  by_cases hk : resourceKey nspace resourceType name = key
  · subst hk
    cases hp : parseInt64 s with
    | none =>
      rw [updateResourceInfo_unparseable _ _ _ _ _ hp]
      exact h
    | some v =>
      obtain ⟨r, hr⟩ := Option.ne_none_iff_exists'.mp h
      rw [updateResourceInfo_get_existing t name resourceType nspace s v r hp hr]
      simp
  · rw [updateResourceInfo_get_other _ _ _ _ _ _ hk]
    exact h

theorem updateResourceInfo_records (t : Table) (name resourceType nspace s : String)
    (hp : parseInt64 s ≠ none) :
    (updateResourceInfo t name resourceType nspace s).get
      (resourceKey nspace resourceType name) ≠ none := by
  obtain ⟨v, hv⟩ := Option.ne_none_iff_exists'.mp hp
  cases hg : t.get (resourceKey nspace resourceType name) with
  | none =>
    rw [updateResourceInfo_get_new t name resourceType nspace s v hv hg]
    simp
  | some r =>
    rw [updateResourceInfo_get_existing t name resourceType nspace s v r hv hg]
    simp

theorem replay_keeps_key (key : String) (obs : List Observation) :
    ∀ (t : Table), t.get key ≠ none → (obs.foldl Observation.apply t).get key ≠ none := by
  induction obs with
  | nil => intro t h; exact h
  | cons o rest ih =>
    intro t h
    simp only [List.foldl_cons]
    exact ih _ (updateResourceInfo_keeps_key t _ _ _ _ key h)

theorem replay_records (obs : List Observation) :
    ∀ (t : Table) (o : Observation), o ∈ obs → parseInt64 o.versionStr ≠ none →
      (obs.foldl Observation.apply t).get o.key ≠ none := by
  induction obs with
  | nil => intro t o ho; exact absurd ho (by simp)
  | cons o' rest ih =>
    intro t o ho hp
    simp only [List.foldl_cons]
    rcases List.mem_cons.mp ho with h | h
    · subst h
      exact replay_keeps_key _ rest _ (updateResourceInfo_records t _ _ _ _ hp)
    · exact ih _ o h hp

theorem namespaces_observed (c : Cluster) (gvr : GroupVersionResource) (kind : String)
    (namespaces : List String) :
    ∀ (acc : List Observation × Nat),
      (∀ o ∈ acc.1, o ∈ (namespaces.foldl
          (fun acc ns => (acc.1 ++ listObservations c acc.2 gvr (some ns) kind, acc.2 + 1))
          acc).1) ∧
      (∀ ns ∈ namespaces, ∃ n, ∀ o ∈ listObservations c n gvr (some ns) kind,
        o ∈ (namespaces.foldl
          (fun acc ns => (acc.1 ++ listObservations c acc.2 gvr (some ns) kind, acc.2 + 1))
          acc).1) := by
  induction namespaces with
  | nil =>
    intro acc
    exact ⟨fun o ho => ho, fun ns hns => absurd hns (by simp)⟩
  | cons ns rest ih =>
    intro acc
    simp only [List.foldl_cons]
    obtain ⟨hkeep, hrest⟩ :=
      ih (acc.1 ++ listObservations c acc.2 gvr (some ns) kind, acc.2 + 1)
    constructor
    · intro o ho
      exact hkeep o (List.mem_append_left _ ho)
    · intro ns' hns'
      rcases List.mem_cons.mp hns' with h | h
      · subst h
        exact ⟨acc.2, fun o ho => hkeep o (List.mem_append_right _ ho)⟩
      · exact hrest ns' h

theorem resources_observed (c : Cluster) (namespaces : List String)
    (apiResources : List apiResourceInfo) :
    ∀ (acc : List Observation × Nat),
      (∀ o ∈ acc.1, o ∈ (apiResources.foldl
          (fun acc apiResource =>
            let r := resourceObservations c namespaces acc.2 apiResource
            (acc.1 ++ r.1, r.2))
          acc).1) ∧
      (∀ d ∈ apiResources, ∃ n, ∀ o ∈ (resourceObservations c namespaces n d).1,
        o ∈ (apiResources.foldl
          (fun acc apiResource =>
            let r := resourceObservations c namespaces acc.2 apiResource
            (acc.1 ++ r.1, r.2))
          acc).1) := by
  induction apiResources with
  | nil =>
    intro acc
    exact ⟨fun o ho => ho, fun d hd => absurd hd (by simp)⟩
  | cons a rest ih =>
    intro acc
    simp only [List.foldl_cons]
    obtain ⟨hkeep, hrest⟩ :=
      ih (acc.1 ++ (resourceObservations c namespaces acc.2 a).1,
          (resourceObservations c namespaces acc.2 a).2)
    constructor
    · intro o ho
      exact hkeep o (List.mem_append_left _ ho)
    · intro d hd
      rcases List.mem_cons.mp hd with h | h
      · subst h
        exact ⟨acc.2, fun o ho => hkeep o (List.mem_append_right _ ho)⟩
      · exact hrest d h

/-- Every item of a list that succeeds whenever it is issued, for a discovered
resource type and a scanned namespace (or cluster-wide for a cluster-scoped
type), is among the observations of the poll. -/
theorem listed_item_observed (c : Cluster) (apiResources : List apiResourceInfo)
    (namespaces : List String) (d : apiResourceInfo) (nsOpt : Option String)
    (items : List Item) (item : Item)
    (hd : d ∈ apiResources)
    (hscope : (d.Namespaced = true ∧ ∃ ns ∈ namespaces, nsOpt = some ns) ∨
              (d.Namespaced = false ∧ nsOpt = none))
    (hok : ∀ n, c.list n { Group := d.Group, Version := d.Version, Resource := d.Name } nsOpt
              = Except.ok items)
    (hitem : item ∈ items) :
    ({ name := item.Name, resourceType := d.Kind, nspace := nsOpt.getD "",
       versionStr := item.ResourceVersion } : Observation)
      ∈ pollObservations c apiResources namespaces := by
  obtain ⟨n, hn⟩ := (resources_observed c namespaces apiResources ([], 0)).2 d hd
  apply hn
  have hlist : ∀ k,
      Observation.mk item.Name d.Kind (nsOpt.getD "") item.ResourceVersion
        ∈ listObservations c k (GroupVersionResource.mk d.Group d.Version d.Name)
            nsOpt d.Kind := by
    intro k
    unfold listObservations
    rw [hok k]
    exact List.mem_map.mpr ⟨item, hitem, rfl⟩
  unfold resourceObservations
  rcases hscope with ⟨hnsd, ns, hns, hopt⟩ | ⟨hnsd, hopt⟩
  · simp only [hnsd, if_true]
    obtain ⟨k, hk⟩ := (namespaces_observed c
      (GroupVersionResource.mk d.Group d.Version d.Name) d.Kind namespaces
      ([], n)).2 ns hns
    apply hk
    rw [← hopt]
    exact hlist k
  · simp only [hnsd, Bool.false_eq_true, if_false]
    rw [← hopt]
    exact hlist n

theorem Poll_completes (c : Cluster) (m : Monitor)
    (hns : m.config.Namespaces ≠ [] ∨ ∃ nsList, c.namespaces = Except.ok nsList) :
    Poll c m =
      (Monitor.mk m.config
        (pollResources c (discoverResources m.config c.catalogue).1 (pollNamespaces c m)
          m.resources), none) := by
  by_cases hempty : m.config.Namespaces = []
  · rcases hns with h | ⟨nsList, hok⟩
    · exact absurd hempty h
    · rw [Poll_enumerated c m nsList hempty hok]
      simp only [pollNamespaces, hempty, List.length_nil, if_true, hok]
  · rw [Poll_filtered c m hempty]
    have hlen : ¬ m.config.Namespaces.length = 0 := by
      intro h
      exact hempty (List.length_eq_zero.mp h)
    simp only [pollNamespaces, hlen, if_false]

/-- C12: whenever the namespace filter is non-empty or the namespace
enumeration succeeds, `Poll` returns no error whatever the outcomes of the list
calls, and every object with a parseable token that a successful list call
returned is a key of the table afterwards: stated for the observations of the
poll, and for the items of any list, of a discovered type in a scanned
namespace (or cluster-wide), that succeeds whenever it is issued. -/
theorem list_failures_never_abort (c : Cluster) (m : Monitor)
    (hns : m.config.Namespaces ≠ [] ∨ ∃ nsList, c.namespaces = Except.ok nsList) :
    (Poll c m).2 = none ∧
    (∀ o ∈ pollObservations c (discoverResources m.config c.catalogue).1 (pollNamespaces c m),
      parseInt64 o.versionStr ≠ none → (Poll c m).1.resources.get o.key ≠ none) ∧
    (∀ d ∈ (discoverResources m.config c.catalogue).1,
      ∀ (nsOpt : Option String) (items : List Item),
        ((d.Namespaced = true ∧ ∃ ns ∈ pollNamespaces c m, nsOpt = some ns) ∨
          (d.Namespaced = false ∧ nsOpt = none)) →
        (∀ n, c.list n (GroupVersionResource.mk d.Group d.Version d.Name) nsOpt
                = Except.ok items) →
        ∀ item ∈ items, parseInt64 item.ResourceVersion ≠ none →
          (Poll c m).1.resources.get (resourceKey (nsOpt.getD "") d.Kind item.Name) ≠ none) := by
  have hpoll := Poll_completes c m hns
  have hobs : ∀ o ∈ pollObservations c (discoverResources m.config c.catalogue).1
        (pollNamespaces c m),
      parseInt64 o.versionStr ≠ none → (Poll c m).1.resources.get o.key ≠ none := by
    intro o ho hp
    rw [hpoll]
    show (pollResources c _ _ m.resources).get o.key ≠ none
    rw [pollResources_eq_replay]
    exact replay_records _ m.resources o ho hp
  refine ⟨by rw [hpoll], hobs, ?_⟩
  intro d hd nsOpt items hscope hok item hitem hp
  exact hobs _ (listed_item_observed c _ _ d nsOpt items item hd hscope hok hitem) hp

/-- Witness of C12: the lists of deployments fail, those of pods and nodes
succeed; `Poll` returns no error and records pod `p` and node `n`, and nothing
else. -/
theorem list_failures_never_abort_witness :
    ((Poll failingDeployments { config := filterConfig [], resources := [] }).2 = none ∧
     (∀ o ∈ pollObservations failingDeployments
          (discoverResources (filterConfig []) failingDeployments.catalogue).1
          (pollNamespaces failingDeployments { config := filterConfig [], resources := [] }),
        parseInt64 o.versionStr ≠ none →
        (Poll failingDeployments { config := filterConfig [], resources := [] }).1.resources.get
          o.key ≠ none) ∧
     (∀ d ∈ (discoverResources (filterConfig []) failingDeployments.catalogue).1,
      ∀ (nsOpt : Option String) (items : List Item),
        ((d.Namespaced = true ∧
            ∃ ns ∈ pollNamespaces failingDeployments
                { config := filterConfig [], resources := [] }, nsOpt = some ns) ∨
          (d.Namespaced = false ∧ nsOpt = none)) →
        (∀ n, failingDeployments.list n (GroupVersionResource.mk d.Group d.Version d.Name) nsOpt
                = Except.ok items) →
        ∀ item ∈ items, parseInt64 item.ResourceVersion ≠ none →
          (Poll failingDeployments { config := filterConfig [], resources := [] }).1.resources.get
            (resourceKey (nsOpt.getD "") d.Kind item.Name) ≠ none)) ∧
    (discoverResources (filterConfig []) failingDeployments.catalogue).1.map (fun d => d.Kind)
      = ["Pod", "Node", "Deployment"] ∧
    (Poll failingDeployments { config := filterConfig [], resources := [] }).1.resources
      = [("/Node/n",
          { Name := "n", Typ := "Node", Namespace := "", ResourceVersion := 6, Changes := 0 }),
         ("a/Pod/p",
          { Name := "p", Typ := "Pod", Namespace := "a", ResourceVersion := 4, Changes := 0 })] :=
  ⟨list_failures_never_abort failingDeployments { config := filterConfig [], resources := [] }
    (Or.inr ⟨["a"], rfl⟩), by decide, by decide⟩

/-! ## Counting within one poll -/

theorem observedVersions_skip (key : String) (o : Observation) (rest : List Observation)
    (h : ¬ (o.key = key ∧ parseInt64 o.versionStr ≠ none)) :
    observedVersions key (o :: rest) = observedVersions key rest := by
  unfold observedVersions
  by_cases hk : o.key = key
  · have hnone : parseInt64 o.versionStr = none := by
      by_contra hp
      exact h ⟨hk, hp⟩
    simp [List.filterMap_cons, hk, hnone]
  · simp [List.filterMap_cons, hk]

theorem observedVersions_take (key : String) (o : Observation) (rest : List Observation)
    (v : Int) (hk : o.key = key) (hv : parseInt64 o.versionStr = some v) :
    observedVersions key (o :: rest) = v :: observedVersions key rest := by
  unfold observedVersions
  simp [List.filterMap_cons, hk, hv]

/-- Replaying observations on a table that holds `key` raises its counter
once per change of version along the stored version followed by the versions
observed under `key`. -/
theorem replay_counts_version_changes (key : String) (obs : List Observation) :
    ∀ (t : Table) (r : ResourceInfo), t.get key = some r →
      ∃ r', (obs.foldl Observation.apply t).get key = some r' ∧
        r'.Changes = incremented r.Changes
          (versionChanges r.ResourceVersion (observedVersions key obs)) := by
  induction obs with
  | nil =>
    intro t r hg
    exact ⟨r, hg, rfl⟩
  | cons o rest ih =>
    intro t r hg
    simp only [List.foldl_cons]
    by_cases hc : o.key = key ∧ parseInt64 o.versionStr ≠ none
    · obtain ⟨hk, hp⟩ := hc
      obtain ⟨v, hv⟩ := Option.ne_none_iff_exists'.mp hp
      have hkey : key = resourceKey o.nspace o.resourceType o.name := by
        rw [← hk]
        rfl
      have hg' : t.get (resourceKey o.nspace o.resourceType o.name) = some r := by
        rw [← hkey]
        exact hg
      have hstep := updateResourceInfo_get_existing t o.name o.resourceType o.nspace
        o.versionStr v r hv hg'
      rw [← hkey] at hstep
      obtain ⟨r', hr', hc'⟩ := ih (Observation.apply t o) _ hstep
      refine ⟨r', hr', ?_⟩
      rw [hc', observedVersions_take key o rest v hk hv]
      show incremented (if v ≠ r.ResourceVersion then wrapInt64 (r.Changes + 1) else r.Changes)
          (versionChanges v (observedVersions key rest))
        = incremented r.Changes
            (versionChanges v (observedVersions key rest)
              + (if v ≠ r.ResourceVersion then 1 else 0))
      unfold incremented
      rw [Function.iterate_add_apply]
      by_cases hvr : v = r.ResourceVersion
      · simp [hvr]
      · simp [hvr]
    · have hsame : (Observation.apply t o).get key = some r := by
        by_cases hk : o.key = key
        · have hnone : parseInt64 o.versionStr = none := by
            by_contra hp
            exact hc ⟨hk, hp⟩
          simp only [Observation.apply]
          rw [updateResourceInfo_unparseable _ _ _ _ _ hnone]
          exact hg
        · simp only [Observation.apply]
          rw [updateResourceInfo_get_other _ _ _ _ _ _ hk]
          exact hg
      rw [observedVersions_skip key o rest hc]
      exact ih _ r hsame

theorem incremented_at_most_once (count : Int) (n : Nat) (h : n ≤ 1) :
    incremented count n = count ∨ incremented count n = wrapInt64 (count + 1) := by
  have hn : n = 0 ∨ n = 1 := by omega
  rcases hn with h0 | h1
  · subst h0
    exact Or.inl rfl
  · subst h1
    exact Or.inr rfl

/-- C6, amended: for every table, descriptors, namespace set and outcome of
the list calls, a key of the table has after the resource-type loop of `Poll`
(and after a `Poll` that gets to that loop) its change count of before, raised
once (by `changes++`, in `int64` arithmetic) per change of version along the
sequence made of the stored version followed by the parseable versions that
the poll's successful list calls return under that key, in call order. Hence,
whenever that sequence changes version at most once (the key is listed once,
or all its listings in the poll carry the same version), the count after the
loop, and after `Poll` itself, is the count of before or that count plus one. -/
theorem poll_increments_once_per_version_change (c : Cluster)
    (apiResources : List apiResourceInfo) (namespaces : List String) (t : Table)
    (key : String) (r : ResourceInfo)
    (hpresent : t.get key = some r) :
    (∃ r', (pollResources c apiResources namespaces t).get key = some r' ∧
      r'.Changes = incremented r.Changes
        (versionChanges r.ResourceVersion
          (observedVersions key (pollObservations c apiResources namespaces))) ∧
      (versionChanges r.ResourceVersion
          (observedVersions key (pollObservations c apiResources namespaces)) ≤ 1 →
        r'.Changes = r.Changes ∨ r'.Changes = wrapInt64 (r.Changes + 1))) ∧
    (∀ config : Config,
      apiResources = (discoverResources config c.catalogue).1 →
      namespaces = pollNamespaces c (Monitor.mk config t) →
      versionChanges r.ResourceVersion
          (observedVersions key (pollObservations c apiResources namespaces)) ≤ 1 →
      ∃ r', (Poll c (Monitor.mk config t)).1.resources.get key = some r' ∧
        (r'.Changes = r.Changes ∨ r'.Changes = wrapInt64 (r.Changes + 1))) ∧
    (∀ config : Config,
      apiResources = (discoverResources config c.catalogue).1 →
      namespaces = pollNamespaces c (Monitor.mk config t) →
      (config.Namespaces ≠ [] ∨ ∃ nsList, c.namespaces = Except.ok nsList) →
      ∃ r', (Poll c (Monitor.mk config t)).1.resources.get key = some r' ∧
        r'.Changes = incremented r.Changes
          (versionChanges r.ResourceVersion
            (observedVersions key (pollObservations c apiResources namespaces)))) := by
  obtain ⟨r', hr', hc'⟩ :=
    replay_counts_version_changes key (pollObservations c apiResources namespaces) t r hpresent
  have hloop : (pollResources c apiResources namespaces t).get key = some r' := by
    rw [pollResources_eq_replay]
    exact hr'
  have honce : versionChanges r.ResourceVersion
        (observedVersions key (pollObservations c apiResources namespaces)) ≤ 1 →
      r'.Changes = r.Changes ∨ r'.Changes = wrapInt64 (r.Changes + 1) := by
    intro h
    rw [hc']
    exact incremented_at_most_once _ _ h
  refine ⟨⟨r', hloop, hc', honce⟩, ?_, ?_⟩
  · intro config hapi hns hle
    rcases Poll_resources c (Monitor.mk config t) with h | h
    · rw [h]
      exact ⟨r, hpresent, Or.inl rfl⟩
    · rw [h, ← hapi, ← hns]
      exact ⟨r', hloop, honce hle⟩
  · intro config hapi hns hcomplete
    rw [Poll_completes c (Monitor.mk config t) hcomplete]
    show ∃ r', (pollResources c (discoverResources config c.catalogue).1
        (pollNamespaces c (Monitor.mk config t)) t).get key = some r' ∧ _
    rw [← hapi, ← hns]
    exact ⟨r', hloop, hc'⟩

/-- Witness of C6, amended: both API groups list widget `x` at version 2 over
the stored version 1: two observations under `/Widget/x`, one change of
version, and the count goes from 0 to 1, in the loop and in `Poll`. -/
theorem poll_increments_once_per_version_change_witness :
    ((∃ r', (pollResources sameVersionCluster widgetDescriptors ["a"]
              widgetMonitor.resources).get "/Widget/x" = some r' ∧
        r'.Changes = incremented 0
          (versionChanges 1
            (observedVersions "/Widget/x"
              (pollObservations sameVersionCluster widgetDescriptors ["a"]))) ∧
        (versionChanges 1
            (observedVersions "/Widget/x"
              (pollObservations sameVersionCluster widgetDescriptors ["a"])) ≤ 1 →
          r'.Changes = 0 ∨ r'.Changes = wrapInt64 (0 + 1))) ∧
     (∀ config : Config,
        widgetDescriptors = (discoverResources config sameVersionCluster.catalogue).1 →
        ["a"] = pollNamespaces sameVersionCluster (Monitor.mk config widgetMonitor.resources) →
        versionChanges 1
            (observedVersions "/Widget/x"
              (pollObservations sameVersionCluster widgetDescriptors ["a"])) ≤ 1 →
        ∃ r', (Poll sameVersionCluster
                (Monitor.mk config widgetMonitor.resources)).1.resources.get "/Widget/x"
              = some r' ∧
          (r'.Changes = 0 ∨ r'.Changes = wrapInt64 (0 + 1))) ∧
     (∀ config : Config,
        widgetDescriptors = (discoverResources config sameVersionCluster.catalogue).1 →
        ["a"] = pollNamespaces sameVersionCluster (Monitor.mk config widgetMonitor.resources) →
        (config.Namespaces ≠ [] ∨ ∃ nsList, sameVersionCluster.namespaces = Except.ok nsList) →
        ∃ r', (Poll sameVersionCluster
                (Monitor.mk config widgetMonitor.resources)).1.resources.get "/Widget/x"
              = some r' ∧
          r'.Changes = incremented 0
            (versionChanges 1
              (observedVersions "/Widget/x"
                (pollObservations sameVersionCluster widgetDescriptors ["a"]))))) ∧
    observedVersions "/Widget/x" (pollObservations sameVersionCluster widgetDescriptors ["a"])
      = [2, 2] ∧
    versionChanges 1 [2, 2] = 1 ∧
    widgetDescriptors
      = (discoverResources widgetMonitor.config sameVersionCluster.catalogue).1 ∧
    ["a"] = pollNamespaces sameVersionCluster widgetMonitor ∧
    ((Poll sameVersionCluster widgetMonitor).1.resources.get "/Widget/x").map
        (fun r => r.Changes) = some 1 ∧
    versionChanges 1
        (observedVersions "/Widget/x"
          (pollObservations twoGroupsCluster widgetDescriptors ["a"])) = 2 ∧
    ((pollResources podCluster podDescriptors ["a", "b"] podTable).get "a/Pod/x").map
        (fun r => r.Changes) = some 4 :=
  ⟨poll_increments_once_per_version_change sameVersionCluster widgetDescriptors ["a"]
    widgetMonitor.resources "/Widget/x"
    { Name := "x", Typ := "Widget", Namespace := "", ResourceVersion := 1, Changes := 0 }
    (by decide), by decide, by decide, by decide, by decide, by decide, by decide, by decide⟩

end Kflap

namespace Kctx

/-! ## Renaming contexts -/

theorem length_filter_ne (names : List String) (o : String)
    (hnodup : names.Nodup) (hmem : o ∈ names) :
    (names.filter (fun x => !decide (x = o))).length + 1 = names.length := by
  induction names with
  | nil => exact absurd hmem (by simp)
  | cons a rest ih =>
    obtain ⟨hnot, hrest⟩ := List.nodup_cons.mp hnodup
    by_cases ha : a = o
    · subst ha
      have hall : rest.filter (fun x => !decide (x = a)) = rest := by
        apply List.filter_eq_self.mpr
        intro x hx
        have : x ≠ a := fun h => hnot (h ▸ hx)
        simp [this]
      simp [List.filter, hall]
    · have hmem' : o ∈ rest := by
        rcases List.mem_cons.mp hmem with h | h
        · exact absurd h.symm ha
        · exact h
      have := ih hrest hmem'
      simp only [List.filter, ha, decide_False, Bool.not_false, List.length_cons]
      omega

theorem contextsGet_isSome (contexts : List (String × Context)) (name : String)
    (h : name ∈ contexts.map (fun kv => kv.1)) :
    ∃ context, contextsGet contexts name = some context := by
  induction contexts with
  | nil => exact absurd h (by simp)
  | cons kv rest ih =>
    obtain ⟨k, v⟩ := kv
    by_cases hk : k = name
    · exact ⟨v, by simp [contextsGet, hk]⟩
    · have hrest : name ∈ rest.map (fun kv => kv.1) := by
        rcases List.mem_cons.mp h with h' | h'
        · exact absurd h'.symm hk
        · exact h'
      obtain ⟨context, hc⟩ := ih hrest
      exact ⟨context, by simp [contextsGet, hk, hc]⟩

theorem names_contextsDelete (contexts : List (String × Context)) (name : String) :
    (contextsDelete contexts name).map (fun kv => kv.1)
      = (contexts.map (fun kv => kv.1)).filter (fun x => !decide (x = name)) := by
  induction contexts with
  | nil => rfl
  | cons kv rest ih =>
    obtain ⟨k, v⟩ := kv
    by_cases hk : k = name
    · simp only [contextsDelete] at ih
      simp [contextsDelete, List.filter, hk, ih]
    · simp only [contextsDelete] at ih
      simp [contextsDelete, List.filter, hk, ih]

/-- The names after one change whose old name exists and whose new name is
not yet a context name. -/
theorem names_applyChange_fresh (config : Config) (change : ContextChange)
    (hold : change.OldName ∈ contextNames config)
    (hnew : change.NewName ∉ contextNames config) :
    contextNames (applyChange config change)
      = change.NewName ::
          (contextNames config).filter (fun x => !decide (x = change.OldName)) := by
  obtain ⟨context, hc⟩ := contextsGet_isSome config.Contexts change.OldName hold
  have hne : change.NewName ≠ change.OldName := fun h => hnew (h ▸ hold)
  have hsame : (contextNames config).filter (fun x => !decide (x = change.NewName))
      = contextNames config := by
    apply List.filter_eq_self.mpr
    intro x hx
    have : x ≠ change.NewName := fun h => hnew (h ▸ hx)
    simp [this]
  have hnames : ∀ current,
      contextNames (Config.mk
        (contextsDelete (contextsSet config.Contexts change.NewName context) change.OldName)
        current)
        = change.NewName ::
            (contextNames config).filter (fun x => !decide (x = change.OldName)) := by
    intro current
    unfold contextNames at hsame ⊢
    simp only []
    rw [names_contextsDelete]
    simp only [contextsSet, List.map_cons]
    rw [names_contextsDelete, hsame]
    simp [List.filter, hne]
  unfold applyChange
  simp only [hc]
  split
  · exact hnames _
  · exact hnames _

/-- When the new names are pairwise distinct and none of them is a context
name yet, renaming keeps the number of contexts, every new name is a context
name afterwards, and every name that is not renamed stays. -/
theorem rename_to_fresh_names (changes : List ContextChange) :
    ∀ (config : Config),
      (contextNames config).Nodup →
      (changes.map (fun ch => ch.OldName)).Nodup →
      (∀ ch ∈ changes, ch.OldName ∈ contextNames config) →
      (changes.map (fun ch => ch.NewName)).Nodup →
      (∀ ch ∈ changes, ch.NewName ∉ contextNames config) →
      (contextNames (applyContextChanges config changes)).length
          = (contextNames config).length ∧
      (∀ ch ∈ changes, ch.NewName ∈ contextNames (applyContextChanges config changes)) ∧
      (∀ x ∈ contextNames config, x ∉ changes.map (fun ch => ch.OldName) →
        x ∈ contextNames (applyContextChanges config changes)) := by
  induction changes with
  | nil =>
    intro config _ _ _ _ _
    exact ⟨rfl, fun ch hch => absurd hch (by simp), fun x hx _ => hx⟩
  | cons change rest ih =>
    intro config hnodup holdNodup hold hnewNodup hnew
    have hstep := names_applyChange_fresh config change (hold change (by simp))
      (hnew change (by simp))
    obtain ⟨holdNot, holdRest⟩ := List.nodup_cons.mp holdNodup
    obtain ⟨hnewNot, hnewRest⟩ := List.nodup_cons.mp hnewNodup
    have hne : change.NewName ≠ change.OldName :=
      fun h => hnew change (by simp) (h ▸ hold change (by simp))
    have hmemStep : ∀ x, x ∈ contextNames (applyChange config change) ↔
        x = change.NewName ∨ (x ∈ contextNames config ∧ x ≠ change.OldName) := by
      intro x
      rw [hstep]
      simp [List.mem_filter]
    have hnodup' : (contextNames (applyChange config change)).Nodup := by
      rw [hstep]
      apply List.nodup_cons.mpr
      constructor
      · intro hmem
        exact hnew change (by simp) (List.mem_of_mem_filter hmem)
      · exact hnodup.filter _
    have hold' : ∀ ch ∈ rest, ch.OldName ∈ contextNames (applyChange config change) := by
      intro ch hch
      rw [hmemStep]
      right
      refine ⟨hold ch (by simp [hch]), ?_⟩
      intro h
      exact holdNot (List.mem_map.mpr ⟨ch, hch, h⟩)
    have hnew' : ∀ ch ∈ rest, ch.NewName ∉ contextNames (applyChange config change) := by
      intro ch hch hmem
      rcases (hmemStep _).mp hmem with h | ⟨h, _⟩
      · exact hnewNot (List.mem_map.mpr ⟨ch, hch, h⟩)
      · exact hnew ch (by simp [hch]) h
    obtain ⟨hlen, hnewIn, hkeep⟩ :=
      ih (applyChange config change) hnodup' holdRest hold' hnewRest hnew'
    have hfold : applyContextChanges config (change :: rest)
        = applyContextChanges (applyChange config change) rest := rfl
    rw [hfold]
    refine ⟨?_, ?_, ?_⟩
    · rw [hlen, hstep, List.length_cons]
      exact length_filter_ne _ _ hnodup (hold change (by simp))
    · intro ch hch
      rcases List.mem_cons.mp hch with h | h
      · subst h
        apply hkeep _ ((hmemStep _).mpr (Or.inl rfl))
        intro hmem
        obtain ⟨ch', hch', heq⟩ := List.mem_map.mp hmem
        exact hnew ch (by simp) (heq ▸ hold ch' (by simp [hch']))
      · exact hnewIn ch h
    · intro x hx hnot
      apply hkeep x
      · rw [hmemStep]
        right
        refine ⟨hx, ?_⟩
        intro h
        exact hnot (by simp [h])
      · intro hmem
        exact hnot (by simp only [List.map_cons, List.mem_cons]; exact Or.inr hmem)

/-- C13 fails on the code: deleting the match of `-[0-9]$` from the contexts
`dev-1` and `dev-2` builds the changes `dev-1 -> dev` and `dev-2 -> dev`, whose
old names are distinct existing context names and whose new names differ from
the old ones; `applyContextChanges` leaves the single context `dev`, bound to
the second cluster, so one of two contexts is lost. With the changes
`a -> aa`, `aa -> aaa` on the contexts `a`, `aa` one context is left and the
new name `aa` is no context name. The changes to `prod-1`, `prod-2` keep both
contexts. -/
theorem rename_collision_loses_context :
    buildChanges dashDigit "" devConfig = devChanges ∧
    wellFormedChanges devConfig devChanges ∧
    (contextNames devConfig).length = 2 ∧
    applyContextChanges devConfig devChanges
      = { Contexts := [("dev", devTwo)], CurrentContext := "dev" } ∧
    DeleteFromContexts dashDigit true false devConfig
      = { Contexts := [("dev", devTwo)], CurrentContext := "dev" } ∧
    (contextNames (applyContextChanges devConfig devChanges)).length = 1 ∧
    wellFormedChanges chainConfig chainChanges ∧
    contextNames (applyContextChanges chainConfig chainChanges) = ["aaa"] ∧
    "aa" ∉ contextNames (applyContextChanges chainConfig chainChanges) ∧
    contextNames (applyContextChanges devConfig prodChanges) = ["prod-2", "prod-1"] := by
  refine ⟨by decide, ⟨by decide, by decide, by decide⟩, by decide, by decide, by decide,
    by decide, ⟨by decide, by decide, by decide⟩, by decide, by decide, by decide⟩

end Kctx
